import Mathlib

/-!
Conflicting VirtualService hosts.

A development over `pkg/vetter/conflictingvirtualservicehost/vet.go`.

The Go function `createVirtualServiceNotes` is embedded as a pure function.
Its three external collaborators are parameters:

* `normalize`  : `util.ConvertHostnameToFQDN`, a fallible function of the raw
  host and the namespace of the declaring VirtualService;
* `computeID`  : `util.ComputeID`, a function of a note;
* `iter`       : the order in which `range vsMap` yields the entries of the Go
  map, which the language leaves unspecified: any permutation of the entries.

The write to standard output before the error return is not modelled.
-/

namespace ConflictingVirtualServiceHost

/-! ## Data model -/

/-- A VirtualService as far as the vetter reads it: `vs.Name`, `vs.Namespace`
and `vs.Spec.GetHosts()`. -/
structure VirtualService where
  Name : String
  Namespace : String
  Hosts : List String
  deriving DecidableEq, Repr

/-- Modelled from the spec: the enumeration `apiv1.NoteLevel` is declared outside
the vetter; the spec describes the level used here as the highest one. The four
levels are listed in ascending order. -/
inductive NoteLevel where
  | UNUSED
  | INFO
  | WARNING
  | ERROR
  deriving DecidableEq, Repr

/-- Numeric rank of a level, ascending. -/
def NoteLevel.rank : NoteLevel → Nat
  | .UNUSED => 0
  | .INFO => 1
  | .WARNING => 2
  | .ERROR => 3

/-- The record `apiv1.Note`. The Go field `Type` is spelled `Type_`; the Go map
`Attr` is kept as the list of its key/value pairs in literal order. -/
structure Note where
  Id : String
  Type_ : String
  Summary : String
  Msg : String
  Level : NoteLevel
  Attr : List (String × String)
  deriving DecidableEq, Repr

/-- Reading `n.Attr[key]`. -/
def Note.attr (n : Note) (key : String) : Option String :=
  (n.Attr.find? (fun kv => kv.1 == key)).map Prod.snd

/-! ## Constants -/

def vetterID : String := "ConflictingVirtualServiceHost"

def vsHostNoteType : String := "host-in-multiple-vs"

def vsHostSummary : String :=
  "Multiple VirtualServices define the same host - $\x7bhost\x7d"

def vsHostMsg : String :=
  "The VirtualServices $\x7bvs_names\x7d in namespace(s) $\x7bnamespaces\x7d" ++
  " define the same host, $\x7bhost\x7d. A host name can be defined by only one VirtualService." ++
  " Consider updating the VirtualService(s) to have unique hostnames."

/-! ## The Go map `map[string][]*VirtualService` -/

/-- The entries of the map; keys are kept pairwise distinct by `VsMap.set`. -/
abbrev VsMap := List (String × List VirtualService)

/-- The lookup `v, ok := m[k]`. -/
def VsMap.get? : VsMap → String → Option (List VirtualService)
  | [], _ => none
  | (k1, v) :: rest, k => if k1 = k then some v else VsMap.get? rest k

/-- The assignment `m[k] = v`. -/
def VsMap.set : VsMap → String → List VirtualService → VsMap
  | [], k, v => [(k, v)]
  | (k1, v1) :: rest, k, v =>
    if k1 = k then (k, v) :: rest else (k1, v1) :: VsMap.set rest k v

/-- An iteration order for `range` over a map: every entry is visited exactly
once, in an order the runtime chooses. -/
structure MapIter where
  order : VsMap → VsMap
  perm : ∀ m : VsMap, List.Perm (order m) m

/-- Iteration in insertion order. -/
def MapIter.insertion : MapIter := ⟨fun m => m, fun m => List.Perm.refl m⟩

/-- Iteration in reverse insertion order. -/
def MapIter.reversed : MapIter := ⟨fun m => m.reverse, fun m => List.reverse_perm m⟩

/-! ## `createVirtualServiceNotes` -/

variable {E : Type}

/-- The body of the inner loop (lines 60-64): record `vs` under `hostname`. -/
def recordHost (vsMap : VsMap) (hostname : String) (vs : VirtualService) : VsMap :=
  match vsMap.get? hostname with
  | none => vsMap.set hostname [vs]
  | some vsList => vsMap.set hostname (vsList ++ [vs])

/-- The inner loop (lines 54-65) over the hosts of one VirtualService; a
normalizer error leaves the function at once. -/
def addHosts (normalize : String → String → Except E String) (vs : VirtualService) :
    List String → VsMap → Except E VsMap
  | [], vsMap => .ok vsMap
  | host :: hosts, vsMap =>
    match normalize host vs.Namespace with
    | .error err => .error err
    | .ok hostname => addHosts normalize vs hosts (recordHost vsMap hostname vs)

/-- The outer loop (lines 53-66) over the VirtualServices. -/
def buildVsMap (normalize : String → String → Except E String) :
    List VirtualService → VsMap → Except E VsMap
  | [], vsMap => .ok vsMap
  | vs :: rest, vsMap =>
    match addHosts normalize vs vs.Hosts vsMap with
    | .error err => .error err
    | .ok vsMap1 => buildVsMap normalize rest vsMap1

/-- The loop of lines 73-76: the names and the namespaces of a bucket. -/
def namesAndNamespaces : List VirtualService → List String × List String → List String × List String
  | [], acc => acc
  | vs :: rest, (vsNames, vsNamespaces) =>
    namesAndNamespaces rest (vsNames ++ [vs.Name], vsNamespaces ++ [vs.Namespace])

/-- The note literal of lines 77-85; `Id` is still the zero value. -/
def mkNote (host : String) (vsList : List VirtualService) : Note :=
  let r := namesAndNamespaces vsList ([], [])
  { Id := ""
    Type_ := vsHostNoteType
    Summary := vsHostSummary
    Msg := vsHostMsg
    Level := NoteLevel.ERROR
    Attr := [("host", host),
             ("vs_names", ", ".intercalate r.1),
             ("namespaces", ", ".intercalate r.2)] }

/-- The loop of lines 69-87 over the entries in the order `range` yields them. -/
def collectNotes : VsMap → List Note → List Note
  | [], notes => notes
  | (host, vsList) :: rest, notes =>
    if vsList.length > 1 then collectNotes rest (notes ++ [mkNote host vsList])
    else collectNotes rest notes

/-- The loop of lines 88-90: every note receives its identifier. -/
def assignIds (computeID : Note → String) (notes : List Note) : List Note :=
  notes.map (fun n => { n with Id := computeID n })

/-- The function `createVirtualServiceNotes`: `.error err` is `return nil, err`
and `.ok notes` is `return notes, nil`. -/
def createVirtualServiceNotes (normalize : String → String → Except E String)
    (computeID : Note → String) (iter : MapIter)
    (virtualServices : List VirtualService) : Except E (List Note) :=
  match buildVsMap normalize virtualServices [] with
  | .error err => .error err
  | .ok vsMap => .ok (assignIds computeID (collectNotes (iter.order vsMap) []))

/-! ## Reference notions used in the statements -/

/-- The declared (host, namespace) pairs in input order. -/
def declaredPairs (vss : List VirtualService) : List (String × String) :=
  vss.flatMap (fun vs => vs.Hosts.map (fun h => (h, vs.Namespace)))

/-- Whether `normalize` sends the raw host `h` in namespace `ns` to `c`. -/
def normalizesTo (normalize : String → String → Except E String) (h ns c : String) : Bool :=
  match normalize h ns with
  | .ok c1 => c1 == c
  | .error _ => false

/-- The objects declaring a host that normalizes to `c`, in input order, once
per declaring occurrence. -/
def occurrences (normalize : String → String → Except E String)
    (vss : List VirtualService) (c : String) : List VirtualService :=
  vss.flatMap (fun vs =>
    (vs.Hosts.filter (fun h => normalizesTo normalize h vs.Namespace c)).map (fun _ => vs))

/-- The error of the first pair on which `normalize` fails, if any. -/
def firstError (normalize : String → String → Except E String) :
    List (String × String) → Option E
  | [] => none
  | (h, ns) :: rest =>
    match normalize h ns with
    | .error err => some err
    | .ok _ => firstError normalize rest

/-- The value of the `host` attribute, empty when absent. -/
def Note.host (n : Note) : String := (n.attr "host").getD ""

/-- The note reported for the canonical host `c` with bucket `l`, identifier
included. -/
def noteFor (computeID : Note → String) (c : String) (l : List VirtualService) : Note :=
  { mkNote c l with Id := computeID (mkNote c l) }

/-- The map `m` holds exactly the non-empty buckets of `occ`, each under one key. -/
structure Represents (m : VsMap) (occ : String → List VirtualService) : Prop where
  nodup : (m.map Prod.fst).Nodup
  get : ∀ k v, VsMap.get? m k = some v ↔ (v = occ k ∧ v ≠ [])

/-- The canonical hosts of the declared pairs on which `normalize` succeeds, in
input order. -/
def canonicalHosts (normalize : String → String → Except E String)
    (vss : List VirtualService) : List String :=
  (declaredPairs vss).filterMap (fun p =>
    match normalize p.1 p.2 with
    | .ok c => some c
    | .error _ => none)

/-- The canonical hosts with at least two declaring occurrences, each once. -/
def conflictHosts (normalize : String → String → Except E String)
    (vss : List VirtualService) : List String :=
  (canonicalHosts normalize vss).dedup.filter
    (fun c => decide (2 ≤ (occurrences normalize vss c).length))

/-! ## Sample data -/

/-- A normalizer in the style of the examples: a bare name is qualified with the
namespace, the empty host is rejected, anything else is kept. -/
def sampleNormalize (h ns : String) : Except String String :=
  if h = "" then .error ("empty host in " ++ ns)
  else if h = "foo" then .ok ("foo." ++ ns ++ ".svc")
  else .ok h

def sampleID (n : Note) : String := "id:" ++ n.host

def vsA : VirtualService := ⟨"A", "ns1", ["foo"]⟩
def vsB : VirtualService := ⟨"B", "ns1", ["foo.ns1.svc"]⟩
def vsC : VirtualService := ⟨"C", "ns2", ["bar.example.com", "foo.ns1.svc"]⟩
def vsD : VirtualService := ⟨"D", "ns2", ["bar.example.com"]⟩
def vsBad : VirtualService := ⟨"Bad", "ns3", ["ok.example.com", ""]⟩
def vsBad2 : VirtualService := ⟨"Bad2", "ns4", [""]⟩
def vsSelf : VirtualService := ⟨"S", "ns1", ["foo", "foo.ns1.svc"]⟩

/-- A normalizer that rejects every host. -/
def rejectAll (h _ns : String) : Except String String := .error ("rejected " ++ h)

def vsEmpty : VirtualService := ⟨"Empty", "ns5", []⟩

/-! ## Placeholders of a template -/

/-- One pass over the characters of a template: outside a placeholder (`none`)
the two characters dollar, opening brace start one; inside (`some acc`) the
closing brace ends it and its name is emitted. -/
def scanPlaceholders : List Char → Option (List Char) → List String
  | [], _ => []
  | c :: cs, some acc =>
    if c = Char.ofNat 125 then String.mk acc.reverse :: scanPlaceholders cs none
    else scanPlaceholders cs (some (c :: acc))
  | c :: cs, none =>
    match cs with
    | [] => []
    | d :: ds =>
      if c = Char.ofNat 36 ∧ d = Char.ofNat 123 then scanPlaceholders ds (some [])
      else scanPlaceholders (d :: ds) none

/-- The placeholder names occurring in a template, in order of occurrence. -/
def placeholders (s : String) : List String := scanPlaceholders s.toList none

/-- The same objects up to a reordering of the hosts inside each object. -/
def hostsReordered (a b : VirtualService) : Prop :=
  a.Name = b.Name ∧ a.Namespace = b.Namespace ∧ List.Perm a.Hosts b.Hosts

/-! ## The map operations -/

theorem VsMap.get?_set (m : VsMap) (k k1 : String) (v : List VirtualService) :
    VsMap.get? (VsMap.set m k v) k1 = if k = k1 then some v else VsMap.get? m k1 := by
  induction m with
  | nil =>
    by_cases h : k = k1 <;> simp [VsMap.set, VsMap.get?, h]
  | cons e rest ih =>
    obtain ⟨k0, v0⟩ := e
    by_cases h0 : k0 = k
    · subst h0
      by_cases h : k0 = k1 <;> simp [VsMap.set, VsMap.get?, h]
    · by_cases h : k = k1
      · subst h
        simp [VsMap.set, VsMap.get?, h0, ih]
      · by_cases h1 : k0 = k1
        · subst h1
          simp [VsMap.set, VsMap.get?, h0, h]
        · simp [VsMap.set, VsMap.get?, h0, h, h1, ih]

theorem VsMap.get?_eq_none_iff (m : VsMap) (k : String) :
    VsMap.get? m k = none ↔ k ∉ m.map Prod.fst := by
  induction m with
  | nil => simp [VsMap.get?]
  | cons e rest ih =>
    obtain ⟨k0, v0⟩ := e
    by_cases h0 : k0 = k
    · simp [VsMap.get?, h0]
    · have h1 : ¬ k = k0 := fun h => h0 h.symm
      simp [VsMap.get?, h0, h1, ih]

theorem VsMap.keys_set (m : VsMap) (k : String) (v : List VirtualService) :
    (VsMap.set m k v).map Prod.fst =
      if k ∈ m.map Prod.fst then m.map Prod.fst else m.map Prod.fst ++ [k] := by
  induction m with
  | nil => simp [VsMap.set]
  | cons e rest ih =>
    obtain ⟨k0, v0⟩ := e
    by_cases h0 : k0 = k
    · subst h0
      simp [VsMap.set]
    · have h1 : ¬ k = k0 := fun h => h0 h.symm
      simp only [VsMap.set, h0, if_false, List.map_cons, ih, List.mem_cons, h1, false_or]
      split <;> simp

theorem VsMap.nodup_set (m : VsMap) (k : String) (v : List VirtualService)
    (h : (m.map Prod.fst).Nodup) : ((VsMap.set m k v).map Prod.fst).Nodup := by
  rw [VsMap.keys_set]
  split
  · exact h
  · rename_i hk
    rw [List.nodup_append]
    refine ⟨h, List.nodup_singleton k, ?_⟩
    intro a ha hb
    simp at hb
    subst hb
    exact hk ha

theorem VsMap.mem_iff_get? (m : VsMap) (h : (m.map Prod.fst).Nodup) (k : String)
    (v : List VirtualService) : (k, v) ∈ m ↔ VsMap.get? m k = some v := by
  induction m with
  | nil => simp [VsMap.get?]
  | cons e rest ih =>
    obtain ⟨k0, v0⟩ := e
    simp only [List.map_cons, List.nodup_cons] at h
    by_cases h0 : k0 = k
    · subst h0
      simp only [VsMap.get?, if_true, List.mem_cons, Prod.mk.injEq, true_and, Option.some.injEq]
      constructor
      · rintro (h1 | h1)
        · exact h1.symm
        · exact absurd (List.mem_map_of_mem Prod.fst h1) h.1
      · intro h1
        exact Or.inl h1.symm
    · have h1 : ¬ k = k0 := fun h => h0 h.symm
      simp [VsMap.get?, h0, h1, ih h.2]

/-! ## The grouping loops -/

theorem Represents.empty : Represents [] (fun _ => []) := by
  refine ⟨by simp, ?_⟩
  intro k v
  simp [VsMap.get?]

theorem Represents.congr {m : VsMap} {occ occ1 : String → List VirtualService}
    (h : Represents m occ) (heq : ∀ k, occ k = occ1 k) : Represents m occ1 := by
  have : occ = occ1 := funext heq
  rw [← this]
  exact h

theorem Represents.mem_iff {m : VsMap} {occ : String → List VirtualService}
    (h : Represents m occ) (k : String) (v : List VirtualService) :
    (k, v) ∈ m ↔ (v = occ k ∧ v ≠ []) := by
  rw [VsMap.mem_iff_get? m h.nodup]
  exact h.get k v

theorem Represents.recordHost {m : VsMap} {occ : String → List VirtualService}
    (h : Represents m occ) (c : String) (vs : VirtualService) :
    Represents (recordHost m c vs) (fun k => if k = c then occ k ++ [vs] else occ k) := by
  unfold ConflictingVirtualServiceHost.recordHost
  cases hg : VsMap.get? m c with
  | none =>
    have hocc : occ c = [] := by
      by_contra hne
      have := (h.get c (occ c)).mpr ⟨rfl, hne⟩
      rw [hg] at this
      exact Option.noConfusion this
    refine ⟨VsMap.nodup_set m c [vs] h.nodup, ?_⟩
    intro k v
    simp only []
    rw [VsMap.get?_set]
    by_cases hk : c = k
    · subst hk
      simp only [if_true, hocc, List.nil_append, Option.some.injEq]
      constructor
      · intro e
        subst e
        simp
      · intro e
        exact e.1.symm
    · have hk1 : ¬ k = c := fun e => hk e.symm
      simp only [hk, hk1, if_false]
      exact h.get k v
  | some l =>
    have hl := (h.get c l).mp hg
    refine ⟨VsMap.nodup_set m c (l ++ [vs]) h.nodup, ?_⟩
    intro k v
    simp only []
    rw [VsMap.get?_set]
    by_cases hk : c = k
    · subst hk
      simp only [if_true, Option.some.injEq, ← hl.1]
      constructor
      · intro e
        subst e
        simp
      · intro e
        exact e.1.symm
    · have hk1 : ¬ k = c := fun e => hk e.symm
      simp only [hk, hk1, if_false]
      exact h.get k v

theorem addHosts_represents (normalize : String → String → Except E String)
    (vs : VirtualService) (hosts : List String) :
    ∀ (m m1 : VsMap) (occ : String → List VirtualService), Represents m occ →
      addHosts normalize vs hosts m = .ok m1 →
      Represents m1 (fun k => occ k ++
        (hosts.filter (fun h => normalizesTo normalize h vs.Namespace k)).map (fun _ => vs)) := by
  induction hosts with
  | nil =>
    intro m m1 occ h hr
    simp only [addHosts, Except.ok.injEq] at hr
    subst hr
    exact h.congr (fun k => by simp)
  | cons host hosts ih =>
    intro m m1 occ h hr
    simp only [addHosts] at hr
    cases hn : normalize host vs.Namespace with
    | error err =>
      rw [hn] at hr
      exact Except.noConfusion hr
    | ok c =>
      rw [hn] at hr
      simp only [] at hr
      refine (ih _ m1 _ (h.recordHost c vs) hr).congr ?_
      intro k
      by_cases hk : k = c
      · subst hk
        simp [normalizesTo, hn]
      · have hk1 : ¬ c = k := fun e => hk e.symm
        simp [normalizesTo, hn, hk, hk1]

theorem buildVsMap_represents (normalize : String → String → Except E String)
    (vss : List VirtualService) :
    ∀ (m m1 : VsMap) (occ : String → List VirtualService), Represents m occ →
      buildVsMap normalize vss m = .ok m1 →
      Represents m1 (fun k => occ k ++ occurrences normalize vss k) := by
  induction vss with
  | nil =>
    intro m m1 occ h hr
    simp only [buildVsMap, Except.ok.injEq] at hr
    subst hr
    exact h.congr (fun k => by simp [occurrences])
  | cons vs rest ih =>
    intro m m1 occ h hr
    simp only [buildVsMap] at hr
    cases ha : addHosts normalize vs vs.Hosts m with
    | error err =>
      rw [ha] at hr
      exact Except.noConfusion hr
    | ok m2 =>
      rw [ha] at hr
      simp only [] at hr
      refine (ih m2 m1 _ (addHosts_represents normalize vs vs.Hosts m m2 occ h ha) hr).congr ?_
      intro k
      simp [occurrences]

/-! ## Failure and success of the grouping loops -/

theorem firstError_append_some (normalize : String → String → Except E String)
    (l1 l2 : List (String × String)) (e : E) (h : firstError normalize l1 = some e) :
    firstError normalize (l1 ++ l2) = some e := by
  induction l1 with
  | nil => simp [firstError] at h
  | cons p rest ih =>
    obtain ⟨a, b⟩ := p
    simp only [List.cons_append, firstError] at h ⊢
    cases hn : normalize a b with
    | error err => rw [hn] at h; exact h
    | ok c => rw [hn] at h; exact ih h

theorem firstError_append_none (normalize : String → String → Except E String)
    (l1 l2 : List (String × String)) (h : firstError normalize l1 = none) :
    firstError normalize (l1 ++ l2) = firstError normalize l2 := by
  induction l1 with
  | nil => rfl
  | cons p rest ih =>
    obtain ⟨a, b⟩ := p
    simp only [List.cons_append, firstError] at h ⊢
    cases hn : normalize a b with
    | error err => rw [hn] at h; exact Option.noConfusion h
    | ok c => rw [hn] at h; exact ih h

theorem firstError_eq_none_iff (normalize : String → String → Except E String)
    (l : List (String × String)) :
    firstError normalize l = none ↔ ∀ p ∈ l, ∃ c, normalize p.1 p.2 = .ok c := by
  induction l with
  | nil => simp [firstError]
  | cons p rest ih =>
    obtain ⟨a, b⟩ := p
    simp only [firstError, List.mem_cons, forall_eq_or_imp]
    cases hn : normalize a b with
    | error err => simp
    | ok c => simp [ih]

theorem addHosts_error (normalize : String → String → Except E String) (vs : VirtualService)
    (hosts : List String) (e : E) :
    ∀ m : VsMap, firstError normalize (hosts.map (fun h => (h, vs.Namespace))) = some e →
      addHosts normalize vs hosts m = .error e := by
  induction hosts with
  | nil => intro m h; simp [firstError] at h
  | cons host hosts ih =>
    intro m h
    simp only [List.map_cons, firstError] at h
    simp only [addHosts]
    cases hn : normalize host vs.Namespace with
    | error err =>
      rw [hn] at h
      simp only [Option.some.injEq] at h
      rw [h]
    | ok c =>
      rw [hn] at h
      exact ih _ h

theorem addHosts_ok (normalize : String → String → Except E String) (vs : VirtualService)
    (hosts : List String) :
    ∀ m : VsMap, firstError normalize (hosts.map (fun h => (h, vs.Namespace))) = none →
      ∃ m1, addHosts normalize vs hosts m = .ok m1 := by
  induction hosts with
  | nil => intro m _; exact ⟨m, rfl⟩
  | cons host hosts ih =>
    intro m h
    simp only [List.map_cons, firstError] at h
    simp only [addHosts]
    cases hn : normalize host vs.Namespace with
    | error err =>
      rw [hn] at h
      exact Option.noConfusion h
    | ok c =>
      rw [hn] at h
      exact ih _ h

theorem declaredPairs_cons (vs : VirtualService) (rest : List VirtualService) :
    declaredPairs (vs :: rest) =
      vs.Hosts.map (fun h => (h, vs.Namespace)) ++ declaredPairs rest := by
  simp [declaredPairs]

theorem buildVsMap_error (normalize : String → String → Except E String)
    (vss : List VirtualService) (e : E) :
    ∀ m : VsMap, firstError normalize (declaredPairs vss) = some e →
      buildVsMap normalize vss m = .error e := by
  induction vss with
  | nil => intro m h; simp [declaredPairs, firstError] at h
  | cons vs rest ih =>
    intro m h
    rw [declaredPairs_cons] at h
    simp only [buildVsMap]
    cases hf : firstError normalize (vs.Hosts.map (fun h => (h, vs.Namespace))) with
    | some e1 =>
      rw [firstError_append_some normalize _ _ e1 hf] at h
      simp only [Option.some.injEq] at h
      subst h
      rw [addHosts_error normalize vs vs.Hosts e1 m hf]
    | none =>
      rw [firstError_append_none normalize _ _ hf] at h
      obtain ⟨m1, hm1⟩ := addHosts_ok normalize vs vs.Hosts m hf
      rw [hm1]
      exact ih m1 h

theorem buildVsMap_ok (normalize : String → String → Except E String)
    (vss : List VirtualService) :
    ∀ m : VsMap, firstError normalize (declaredPairs vss) = none →
      ∃ m1, buildVsMap normalize vss m = .ok m1 := by
  induction vss with
  | nil => intro m _; exact ⟨m, rfl⟩
  | cons vs rest ih =>
    intro m h
    rw [declaredPairs_cons] at h
    simp only [buildVsMap]
    cases hf : firstError normalize (vs.Hosts.map (fun h => (h, vs.Namespace))) with
    | some e1 =>
      rw [firstError_append_some normalize _ _ e1 hf] at h
      exact Option.noConfusion h
    | none =>
      rw [firstError_append_none normalize _ _ hf] at h
      obtain ⟨m1, hm1⟩ := addHosts_ok normalize vs vs.Hosts m hf
      rw [hm1]
      exact ih m1 h

/-! ## The emitting loops -/

theorem namesAndNamespaces_eq (l : List VirtualService) :
    ∀ acc : List String × List String,
      namesAndNamespaces l acc =
        (acc.1 ++ l.map VirtualService.Name, acc.2 ++ l.map VirtualService.Namespace) := by
  induction l with
  | nil => intro acc; simp [namesAndNamespaces]
  | cons vs rest ih =>
    intro acc
    obtain ⟨a, b⟩ := acc
    simp [namesAndNamespaces, ih]

theorem mkNote_attr (c : String) (l : List VirtualService) :
    (mkNote c l).Attr =
      [("host", c),
       ("vs_names", ", ".intercalate (l.map VirtualService.Name)),
       ("namespaces", ", ".intercalate (l.map VirtualService.Namespace))] := by
  simp [mkNote, namesAndNamespaces_eq]

theorem collectNotes_eq (m : VsMap) :
    ∀ notes : List Note,
      collectNotes m notes =
        notes ++ (m.filter (fun e => decide (1 < e.2.length))).map (fun e => mkNote e.1 e.2) := by
  induction m with
  | nil => intro notes; simp [collectNotes]
  | cons e rest ih =>
    intro notes
    obtain ⟨k, l⟩ := e
    by_cases h : 1 < l.length
    · simp [collectNotes, h, ih]
    · simp [collectNotes, h, ih]

/-- Shape of a successful result: the map represents the occurrences and the
notes follow the iteration order over the buckets longer than one. -/
theorem create_ok_shape (normalize : String → String → Except E String)
    (computeID : Note → String) (iter : MapIter) (vss : List VirtualService)
    (notes : List Note)
    (h : createVirtualServiceNotes normalize computeID iter vss = .ok notes) :
    ∃ m : VsMap, buildVsMap normalize vss [] = .ok m ∧
      Represents m (occurrences normalize vss) ∧
      notes = ((iter.order m).filter (fun e => decide (1 < e.2.length))).map
        (fun e => noteFor computeID e.1 e.2) := by
  unfold createVirtualServiceNotes at h
  cases hb : buildVsMap normalize vss [] with
  | error err =>
    rw [hb] at h
    exact Except.noConfusion h
  | ok m =>
    rw [hb] at h
    simp only [Except.ok.injEq] at h
    refine ⟨m, rfl, ?_, ?_⟩
    · exact (buildVsMap_represents normalize vss [] m _ Represents.empty hb).congr
        (fun k => by simp)
    · rw [← h, collectNotes_eq]
      simp [assignIds, noteFor]

theorem noteFor_host (computeID : Note → String) (c : String) (l : List VirtualService) :
    (noteFor computeID c l).host = c := by
  simp [noteFor, Note.host, Note.attr, mkNote_attr]

theorem mem_notes_iff (normalize : String → String → Except E String)
    (computeID : Note → String) (iter : MapIter) (vss : List VirtualService)
    (notes : List Note)
    (h : createVirtualServiceNotes normalize computeID iter vss = .ok notes) (n : Note) :
    n ∈ notes ↔ ∃ c, 2 ≤ (occurrences normalize vss c).length ∧
      n = noteFor computeID c (occurrences normalize vss c) := by
  obtain ⟨m, _, hm, hn⟩ := create_ok_shape normalize computeID iter vss notes h
  subst hn
  simp only [List.mem_map, List.mem_filter, decide_eq_true_eq, Prod.exists]
  constructor
  · rintro ⟨c, l, ⟨hmem, hlen⟩, rfl⟩
    have hmem1 := (iter.perm m).mem_iff.mp hmem
    have := (hm.mem_iff c l).mp hmem1
    refine ⟨c, ?_, ?_⟩
    · rw [← this.1]; exact hlen
    · rw [← this.1]
  · rintro ⟨c, hlen, rfl⟩
    refine ⟨c, occurrences normalize vss c, ⟨?_, hlen⟩, rfl⟩
    apply (iter.perm m).mem_iff.mpr
    apply (hm.mem_iff c _).mpr
    refine ⟨rfl, ?_⟩
    intro he
    rw [he] at hlen
    simp at hlen

theorem hosts_nodup (normalize : String → String → Except E String)
    (computeID : Note → String) (iter : MapIter) (vss : List VirtualService)
    (notes : List Note)
    (h : createVirtualServiceNotes normalize computeID iter vss = .ok notes) :
    (notes.map Note.host).Nodup := by
  obtain ⟨m, _, hm, hn⟩ := create_ok_shape normalize computeID iter vss notes h
  subst hn
  have h1 : (((iter.order m).filter (fun e => decide (1 < e.2.length))).map
      (fun e => noteFor computeID e.1 e.2)).map Note.host =
      ((iter.order m).filter (fun e => decide (1 < e.2.length))).map Prod.fst := by
    rw [List.map_map]
    apply List.map_congr_left
    intro e _
    simp [noteFor_host]
  rw [h1]
  have h2 : ((iter.order m).map Prod.fst).Nodup :=
    ((iter.perm m).map Prod.fst).nodup_iff.mpr hm.nodup
  exact List.Nodup.sublist (List.Sublist.map Prod.fst (List.filter_sublist _)) h2

/-! ## Occurrences -/

theorem occurrences_cons (normalize : String → String → Except E String) (vs : VirtualService)
    (rest : List VirtualService) (c : String) :
    occurrences normalize (vs :: rest) c =
      (vs.Hosts.filter (fun h => normalizesTo normalize h vs.Namespace c)).map (fun _ => vs) ++
        occurrences normalize rest c := by
  simp [occurrences]

theorem normalizesTo_of_ok (normalize : String → String → Except E String) (h ns c : String)
    (hn : normalize h ns = .ok c) : normalizesTo normalize h ns c = true := by
  simp [normalizesTo, hn]

theorem mem_occurrences (normalize : String → String → Except E String)
    (vss : List VirtualService) (c : String) (A : VirtualService) :
    A ∈ occurrences normalize vss c ↔
      A ∈ vss ∧ ∃ h ∈ A.Hosts, normalize h A.Namespace = .ok c := by
  simp only [occurrences, List.mem_flatMap, List.mem_map, List.mem_filter]
  constructor
  · rintro ⟨vs, hvs, h, ⟨hh, hn⟩, rfl⟩
    refine ⟨hvs, h, hh, ?_⟩
    unfold normalizesTo at hn
    cases hr : normalize h vs.Namespace with
    | error err => rw [hr] at hn; exact Bool.noConfusion hn
    | ok c1 =>
      rw [hr] at hn
      simp only [beq_iff_eq] at hn
      rw [hn]
  · rintro ⟨hA, h, hh, hn⟩
    exact ⟨A, hA, h, ⟨hh, normalizesTo_of_ok normalize h A.Namespace c hn⟩, rfl⟩

theorem own_occurrences_pos (normalize : String → String → Except E String)
    (A : VirtualService) (hA c : String) (hh : hA ∈ A.Hosts)
    (hn : normalize hA A.Namespace = .ok c) :
    1 ≤ ((A.Hosts.filter (fun h => normalizesTo normalize h A.Namespace c)).map
      (fun _ => A)).length := by
  rw [List.length_map]
  apply List.length_pos_of_mem
  exact List.mem_filter.mpr ⟨hh, normalizesTo_of_ok normalize hA A.Namespace c hn⟩

theorem occurrences_pos (normalize : String → String → Except E String)
    (vss : List VirtualService) (A : VirtualService) (hA c : String) (hmem : A ∈ vss)
    (hh : hA ∈ A.Hosts) (hn : normalize hA A.Namespace = .ok c) :
    1 ≤ (occurrences normalize vss c).length := by
  apply List.length_pos_of_mem
  exact (mem_occurrences normalize vss c A).mpr ⟨hmem, hA, hh, hn⟩

theorem two_occurrences (normalize : String → String → Except E String)
    (vss : List VirtualService) :
    ∀ (i j : Nat) (A B : VirtualService) (hA hB c : String),
      vss[i]? = some A → vss[j]? = some B → i ≠ j → hA ∈ A.Hosts → hB ∈ B.Hosts →
      normalize hA A.Namespace = .ok c → normalize hB B.Namespace = .ok c →
      2 ≤ (occurrences normalize vss c).length := by
  induction vss with
  | nil => intro i j A B hA hB c hi; simp at hi
  | cons vs rest ih =>
    intro i j A B hA hB c hi hj hij hhA hhB hnA hnB
    rw [occurrences_cons, List.length_append]
    cases i with
    | zero =>
      cases j with
      | zero => exact absurd rfl hij
      | succ j1 =>
        simp only [List.getElem?_cons_zero, Option.some.injEq] at hi
        simp only [List.getElem?_cons_succ] at hj
        subst hi
        have h1 := own_occurrences_pos normalize vs hA c hhA hnA
        have h2 := occurrences_pos normalize rest B hB c
          (List.mem_iff_getElem?.mpr ⟨j1, hj⟩) hhB hnB
        omega
    | succ i1 =>
      cases j with
      | zero =>
        simp only [List.getElem?_cons_zero, Option.some.injEq] at hj
        simp only [List.getElem?_cons_succ] at hi
        subst hj
        have h1 := own_occurrences_pos normalize vs hB c hhB hnB
        have h2 := occurrences_pos normalize rest A hA c
          (List.mem_iff_getElem?.mpr ⟨i1, hi⟩) hhA hnA
        omega
      | succ j1 =>
        simp only [List.getElem?_cons_succ] at hi hj
        have := ih i1 j1 A B hA hB c hi hj (fun e => hij (by rw [e])) hhA hhB hnA hnB
        omega

theorem noteFor_Attr (computeID : Note → String) (c : String) (l : List VirtualService) :
    (noteFor computeID c l).Attr =
      [("host", c),
       ("vs_names", ", ".intercalate (l.map VirtualService.Name)),
       ("namespaces", ", ".intercalate (l.map VirtualService.Namespace))] := by
  rw [← mkNote_attr]
  rfl

theorem noteFor_attr_host (computeID : Note → String) (c : String) (l : List VirtualService) :
    (noteFor computeID c l).attr "host" = some c := by
  simp only [Note.attr, noteFor_Attr]
  rfl

theorem noteFor_attr_names (computeID : Note → String) (c : String) (l : List VirtualService) :
    (noteFor computeID c l).attr "vs_names" =
      some (", ".intercalate (l.map VirtualService.Name)) := by
  simp only [Note.attr, noteFor_Attr]
  rfl

theorem noteFor_attr_namespaces (computeID : Note → String) (c : String)
    (l : List VirtualService) :
    (noteFor computeID c l).attr "namespaces" =
      some (", ".intercalate (l.map VirtualService.Namespace)) := by
  simp only [Note.attr, noteFor_Attr]
  rfl

theorem create_ok_of_all (normalize : String → String → Except E String)
    (computeID : Note → String) (iter : MapIter) (vss : List VirtualService)
    (hall : ∀ p ∈ declaredPairs vss, ∃ c, normalize p.1 p.2 = .ok c) :
    ∃ notes, createVirtualServiceNotes normalize computeID iter vss = .ok notes := by
  obtain ⟨m, hm⟩ := buildVsMap_ok normalize vss []
    ((firstError_eq_none_iff normalize _).mpr hall)
  refine ⟨assignIds computeID (collectNotes (iter.order m) []), ?_⟩
  unfold createVirtualServiceNotes
  rw [hm]

/-! ## Conflicts are reported -/

/-- C1: when normalization succeeds on every declared host and two objects at
distinct positions of the input declare hosts with the same canonical form `c`
(same or different namespaces, equal or different raw hosts), the result holds a
note whose `host` attribute is `c` and whose `vs_names` attribute is the join of
a list of names in which both names occur. -/
theorem C1_conflict_reported (normalize : String → String → Except E String)
    (computeID : Note → String) (iter : MapIter) (vss : List VirtualService)
    (i j : Nat) (A B : VirtualService) (hA hB c : String)
    (hall : ∀ p ∈ declaredPairs vss, ∃ c1, normalize p.1 p.2 = .ok c1)
    (hi : vss[i]? = some A) (hj : vss[j]? = some B) (hij : i ≠ j)
    (hhA : hA ∈ A.Hosts) (hhB : hB ∈ B.Hosts)
    (hnA : normalize hA A.Namespace = .ok c) (hnB : normalize hB B.Namespace = .ok c) :
    ∃ notes, createVirtualServiceNotes normalize computeID iter vss = .ok notes ∧
      ∃ n ∈ notes, n.attr "host" = some c ∧
        n.attr "vs_names" =
          some (", ".intercalate ((occurrences normalize vss c).map VirtualService.Name)) ∧
        A.Name ∈ (occurrences normalize vss c).map VirtualService.Name ∧
        B.Name ∈ (occurrences normalize vss c).map VirtualService.Name := by
  obtain ⟨notes, hnotes⟩ := create_ok_of_all normalize computeID iter vss hall
  refine ⟨notes, hnotes, noteFor computeID c (occurrences normalize vss c), ?_, ?_, ?_, ?_, ?_⟩
  · apply (mem_notes_iff normalize computeID iter vss notes hnotes _).mpr
    exact ⟨c, two_occurrences normalize vss i j A B hA hB c hi hj hij hhA hhB hnA hnB, rfl⟩
  · exact noteFor_attr_host computeID c _
  · exact noteFor_attr_names computeID c _
  · exact List.mem_map_of_mem _ ((mem_occurrences normalize vss c A).mpr
      ⟨List.mem_iff_getElem?.mpr ⟨i, hi⟩, hA, hhA, hnA⟩)
  · exact List.mem_map_of_mem _ ((mem_occurrences normalize vss c B).mpr
      ⟨List.mem_iff_getElem?.mpr ⟨j, hj⟩, hB, hhB, hnB⟩)

/-- Instance of C1: `A` declares the short name, `B` the qualified one, map iterated in reverse. -/
theorem C1_conflict_reported_witness :
    (∀ p ∈ declaredPairs [vsA, vsB, vsC, vsD], ∃ c1, sampleNormalize p.1 p.2 = .ok c1) ∧
    ∃ notes, createVirtualServiceNotes sampleNormalize sampleID MapIter.reversed
        [vsA, vsB, vsC, vsD] = .ok notes ∧
      ∃ n ∈ notes, n.attr "host" = some "foo.ns1.svc" ∧
        n.attr "vs_names" = some (", ".intercalate
          ((occurrences sampleNormalize [vsA, vsB, vsC, vsD] "foo.ns1.svc").map
            VirtualService.Name)) ∧
        vsA.Name ∈ (occurrences sampleNormalize [vsA, vsB, vsC, vsD] "foo.ns1.svc").map
          VirtualService.Name ∧
        vsB.Name ∈ (occurrences sampleNormalize [vsA, vsB, vsC, vsD] "foo.ns1.svc").map
          VirtualService.Name :=
  ⟨(firstError_eq_none_iff sampleNormalize _).mp rfl,
   C1_conflict_reported sampleNormalize sampleID MapIter.reversed [vsA, vsB, vsC, vsD]
    0 1 vsA vsB "foo" "foo.ns1.svc" "foo.ns1.svc"
    ((firstError_eq_none_iff sampleNormalize _).mp rfl) rfl rfl (by decide)
    (by decide) (by decide) rfl rfl⟩

/-! ## Repeated hosts inside one object -/

/-- C2: evaluation at a single object that declares one service twice, by its
short name and by its qualified name. Every canonical host is claimed by one
object only, yet for every identifier function and every iteration order the
result is one note, naming the object twice. -/
theorem C2_self_repetition_reported (computeID : Note → String) (iter : MapIter) :
    createVirtualServiceNotes sampleNormalize computeID iter [vsSelf] =
        .ok [noteFor computeID "foo.ns1.svc" [vsSelf, vsSelf]] ∧
      (noteFor computeID "foo.ns1.svc" [vsSelf, vsSelf]).attr "vs_names" = some "S, S" ∧
      (noteFor computeID "foo.ns1.svc" [vsSelf, vsSelf]).attr "namespaces" =
        some "ns1, ns1" := by
  have hb : buildVsMap sampleNormalize [vsSelf] [] =
      .ok [("foo.ns1.svc", [vsSelf, vsSelf])] := rfl
  have ho : iter.order [("foo.ns1.svc", [vsSelf, vsSelf])] =
      [("foo.ns1.svc", [vsSelf, vsSelf])] := List.perm_singleton.mp (iter.perm _)
  refine ⟨?_, rfl, rfl⟩
  unfold createVirtualServiceNotes
  rw [hb]
  simp only [ho]
  rfl

/-! ## Order of the notes -/

theorem mem_canonicalHosts (normalize : String → String → Except E String)
    (vss : List VirtualService) (c : String)
    (h : 1 ≤ (occurrences normalize vss c).length) : c ∈ canonicalHosts normalize vss := by
  obtain ⟨A, hA⟩ := List.exists_mem_of_length_pos h
  obtain ⟨hmem, hh, hhmem, hn⟩ := (mem_occurrences normalize vss c A).mp hA
  simp only [canonicalHosts, List.mem_filterMap, declaredPairs, List.mem_flatMap, List.mem_map]
  exact ⟨(hh, A.Namespace), ⟨A, hmem, hh, hhmem, rfl⟩, by simp [hn]⟩

theorem mem_hosts_iff (normalize : String → String → Except E String)
    (computeID : Note → String) (iter : MapIter) (vss : List VirtualService)
    (notes : List Note)
    (h : createVirtualServiceNotes normalize computeID iter vss = .ok notes) (c : String) :
    c ∈ notes.map Note.host ↔ 2 ≤ (occurrences normalize vss c).length := by
  simp only [List.mem_map, mem_notes_iff normalize computeID iter vss notes h]
  constructor
  · rintro ⟨n, ⟨c1, hlen, rfl⟩, hc⟩
    rw [noteFor_host] at hc
    rw [← hc]
    exact hlen
  · intro hlen
    exact ⟨_, ⟨c, hlen, rfl⟩, noteFor_host computeID c _⟩

theorem hosts_perm_conflictHosts (normalize : String → String → Except E String)
    (computeID : Note → String) (iter : MapIter) (vss : List VirtualService)
    (notes : List Note)
    (h : createVirtualServiceNotes normalize computeID iter vss = .ok notes) :
    List.Perm (notes.map Note.host) (conflictHosts normalize vss) := by
  apply (List.perm_ext_iff_of_nodup (hosts_nodup normalize computeID iter vss notes h)
    (List.Nodup.filter _ (List.nodup_dedup _))).mpr
  intro c
  rw [mem_hosts_iff normalize computeID iter vss notes h c]
  simp only [conflictHosts, List.mem_filter, List.mem_dedup, decide_eq_true_eq]
  constructor
  · intro hlen
    exact ⟨mem_canonicalHosts normalize vss c (by omega), hlen⟩
  · intro hc
    exact hc.2

theorem hosts_eq_filter_keys (computeID : Note → String) (l : VsMap) :
    ((l.filter (fun e => decide (1 < e.2.length))).map
      (fun e => noteFor computeID e.1 e.2)).map Note.host =
      (l.filter (fun e => decide (1 < e.2.length))).map Prod.fst := by
  rw [List.map_map]
  apply List.map_congr_left
  intro e _
  simp [noteFor_host]

/-- C3, as stated, fails: with the map iterated in insertion order the note for
`foo.ns1.svc` comes before the note for `bar.example.com`. -/
theorem C3_not_sorted :
    ∃ notes, createVirtualServiceNotes sampleNormalize sampleID MapIter.insertion
        [vsA, vsB, vsC, vsD] = .ok notes ∧
      notes.map Note.host = ["foo.ns1.svc", "bar.example.com"] ∧
      ¬ List.Pairwise (fun a b : String => a ≤ b) (notes.map Note.host) := by
  refine ⟨_, rfl, rfl, ?_⟩
  show ¬ List.Pairwise (fun a b : String => a ≤ b) ["foo.ns1.svc", "bar.example.com"]
  intro hp
  have h1 : ("foo.ns1.svc" : String) ≤ "bar.example.com" :=
    (List.pairwise_cons.mp hp).1 _ (List.mem_singleton.mpr rfl)
  rw [String.le_iff_toList_le] at h1
  exact absurd h1 (by decide)

/-- C3, amended: on success the host attributes of the returned notes are, up to
order, exactly the canonical hosts with at least two declaring occurrences, each
once, and they appear in the order in which the iteration over the map yields
its keys. -/
theorem C3_order_follows_iteration (normalize : String → String → Except E String)
    (computeID : Note → String) (iter : MapIter) (vss : List VirtualService)
    (notes : List Note)
    (h : createVirtualServiceNotes normalize computeID iter vss = .ok notes) :
    List.Perm (notes.map Note.host) (conflictHosts normalize vss) ∧
      ∃ m, buildVsMap normalize vss [] = .ok m ∧
        List.Sublist (notes.map Note.host) ((iter.order m).map Prod.fst) := by
  refine ⟨hosts_perm_conflictHosts normalize computeID iter vss notes h, ?_⟩
  obtain ⟨m, hb, _, hn⟩ := create_ok_shape normalize computeID iter vss notes h
  refine ⟨m, hb, ?_⟩
  rw [hn, hosts_eq_filter_keys]
  exact List.Sublist.map Prod.fst (List.filter_sublist _)

/-- Instance of the amended C3 under reverse iteration. -/
theorem C3_order_follows_iteration_witness :
    createVirtualServiceNotes sampleNormalize sampleID MapIter.reversed [vsA, vsB, vsC, vsD] =
        .ok [noteFor sampleID "bar.example.com" [vsC, vsD],
             noteFor sampleID "foo.ns1.svc" [vsA, vsB, vsC]] ∧
      (List.Perm
        ([noteFor sampleID "bar.example.com" [vsC, vsD],
          noteFor sampleID "foo.ns1.svc" [vsA, vsB, vsC]].map Note.host)
        (conflictHosts sampleNormalize [vsA, vsB, vsC, vsD]) ∧
      ∃ m, buildVsMap sampleNormalize [vsA, vsB, vsC, vsD] [] = .ok m ∧
        List.Sublist
          ([noteFor sampleID "bar.example.com" [vsC, vsD],
            noteFor sampleID "foo.ns1.svc" [vsA, vsB, vsC]].map Note.host)
          ((MapIter.reversed.order m).map Prod.fst)) :=
  ⟨rfl, C3_order_follows_iteration sampleNormalize sampleID MapIter.reversed
    [vsA, vsB, vsC, vsD] _ rfl⟩

/-! ## Errors -/

theorem firstError_some_split (normalize : String → String → Except E String)
    (l : List (String × String)) (e : E) (h : firstError normalize l = some e) :
    ∃ pre h1 ns post, l = pre ++ (h1, ns) :: post ∧
      (∀ p ∈ pre, ∃ c, normalize p.1 p.2 = .ok c) ∧ normalize h1 ns = .error e := by
  induction l with
  | nil => simp [firstError] at h
  | cons p rest ih =>
    obtain ⟨a, b⟩ := p
    simp only [firstError] at h
    cases hn : normalize a b with
    | error err =>
      rw [hn] at h
      simp only [Option.some.injEq] at h
      subst h
      exact ⟨[], a, b, rest, rfl, by simp, hn⟩
    | ok c =>
      rw [hn] at h
      obtain ⟨pre, h1, ns, post, hl, hpre, herr⟩ := ih h
      refine ⟨(a, b) :: pre, h1, ns, post, by rw [hl]; rfl, ?_, herr⟩
      intro p hp
      rcases List.mem_cons.mp hp with rfl | hp1
      · exact ⟨c, hn⟩
      · exact hpre p hp1

theorem create_error (normalize : String → String → Except E String)
    (computeID : Note → String) (iter : MapIter) (vss : List VirtualService) (e : E)
    (h : firstError normalize (declaredPairs vss) = some e) :
    createVirtualServiceNotes normalize computeID iter vss = .error e := by
  unfold createVirtualServiceNotes
  rw [buildVsMap_error normalize vss e [] h]

/-- C4: when the normalizer fails on some declared host, the declared pairs split
at a first failing pair (every pair before it normalizes) and the result is the
error of that pair itself, with no list of notes. -/
theorem C4_first_error_returned (normalize : String → String → Except E String)
    (computeID : Note → String) (iter : MapIter) (vss : List VirtualService)
    (hfail : ∃ p ∈ declaredPairs vss, ∃ e, normalize p.1 p.2 = .error e) :
    ∃ pre h ns post e, declaredPairs vss = pre ++ (h, ns) :: post ∧
      (∀ p ∈ pre, ∃ c, normalize p.1 p.2 = .ok c) ∧ normalize h ns = .error e ∧
      createVirtualServiceNotes normalize computeID iter vss = .error e := by
  cases hf : firstError normalize (declaredPairs vss) with
  | none =>
    obtain ⟨p, hp, e, he⟩ := hfail
    obtain ⟨c, hc⟩ := (firstError_eq_none_iff normalize _).mp hf p hp
    rw [he] at hc
    exact Except.noConfusion hc
  | some e =>
    obtain ⟨pre, h1, ns, post, hl, hpre, herr⟩ :=
      firstError_some_split normalize (declaredPairs vss) e hf
    exact ⟨pre, h1, ns, post, e, hl, hpre, herr,
      create_error normalize computeID iter vss e hf⟩

/-- Instance of C4: two objects fail, the error of the earlier one is returned. -/
theorem C4_first_error_returned_witness :
    (∃ p ∈ declaredPairs [vsA, vsBad, vsBad2, vsC], ∃ e, sampleNormalize p.1 p.2 = .error e) ∧
    createVirtualServiceNotes sampleNormalize sampleID MapIter.insertion
      [vsA, vsBad, vsBad2, vsC] = .error "empty host in ns3" ∧
    ∃ pre h ns post e, declaredPairs [vsA, vsBad, vsBad2, vsC] = pre ++ (h, ns) :: post ∧
      (∀ p ∈ pre, ∃ c, sampleNormalize p.1 p.2 = .ok c) ∧ sampleNormalize h ns = .error e ∧
      createVirtualServiceNotes sampleNormalize sampleID MapIter.insertion
        [vsA, vsBad, vsBad2, vsC] = .error e :=
  ⟨⟨("", "ns4"), by decide, "empty host in ns4", rfl⟩, rfl,
   C4_first_error_returned sampleNormalize sampleID MapIter.insertion
    [vsA, vsBad, vsBad2, vsC] ⟨("", "ns4"), by decide, "empty host in ns4", rfl⟩⟩

/-- C5: when the normalizer succeeds on every declared host the function
returns a list of notes and no error; on the empty input that list is empty. -/
theorem C5_error_only_from_normalizer (normalize : String → String → Except E String)
    (computeID : Note → String) (iter : MapIter) (vss : List VirtualService)
    (hall : ∀ p ∈ declaredPairs vss, ∃ c, normalize p.1 p.2 = .ok c) :
    (∃ notes, createVirtualServiceNotes normalize computeID iter vss = .ok notes) ∧
      createVirtualServiceNotes normalize computeID iter [] = .ok [] := by
  refine ⟨create_ok_of_all normalize computeID iter vss hall, ?_⟩
  have ho : iter.order [] = [] := List.perm_nil.mp (iter.perm [])
  unfold createVirtualServiceNotes
  simp only [buildVsMap, ho]
  rfl

/-- Instance of C5 on four objects. -/
theorem C5_error_only_from_normalizer_witness :
    (∀ p ∈ declaredPairs [vsA, vsB, vsC, vsD], ∃ c, sampleNormalize p.1 p.2 = .ok c) ∧
    (∃ notes, createVirtualServiceNotes sampleNormalize sampleID MapIter.insertion
        [vsA, vsB, vsC, vsD] = .ok notes) ∧
      createVirtualServiceNotes sampleNormalize sampleID MapIter.insertion [] = .ok [] :=
  ⟨(firstError_eq_none_iff sampleNormalize _).mp rfl,
   C5_error_only_from_normalizer sampleNormalize sampleID MapIter.insertion
    [vsA, vsB, vsC, vsD] ((firstError_eq_none_iff sampleNormalize _).mp rfl)⟩

/-! ## Two objects, one host each -/

/-- C6: two objects with one host each, both normalizing to `c`, give exactly one
note; its `host` is `c`, its `vs_names` is the two names joined by a comma and a
space, its `namespaces` the two namespaces joined the same way. -/
theorem C6_pair (normalize : String → String → Except E String)
    (computeID : Note → String) (iter : MapIter) (A B : VirtualService) (hA hB c : String)
    (hAh : A.Hosts = [hA]) (hBh : B.Hosts = [hB])
    (hnA : normalize hA A.Namespace = .ok c) (hnB : normalize hB B.Namespace = .ok c) :
    ∃ n, createVirtualServiceNotes normalize computeID iter [A, B] = .ok [n] ∧
      n.attr "host" = some c ∧
      n.attr "vs_names" = some (A.Name ++ ", " ++ B.Name) ∧
      n.attr "namespaces" = some (A.Namespace ++ ", " ++ B.Namespace) := by
  have hb : buildVsMap normalize [A, B] [] = .ok [(c, [A, B])] := by
    simp [buildVsMap, hAh, hBh, addHosts, hnA, hnB, recordHost, VsMap.get?, VsMap.set]
  have ho : iter.order [(c, [A, B])] = [(c, [A, B])] :=
    List.perm_singleton.mp (iter.perm _)
  refine ⟨noteFor computeID c [A, B], ?_, noteFor_attr_host computeID c _, ?_, ?_⟩
  · unfold createVirtualServiceNotes
    rw [hb]
    simp only [ho]
    rfl
  · rw [noteFor_attr_names]
    rfl
  · rw [noteFor_attr_namespaces]
    rfl

/-- Instance of C6: short name against qualified name in one namespace. -/
theorem C6_pair_witness :
    vsA.Hosts = ["foo"] ∧ vsB.Hosts = ["foo.ns1.svc"] ∧
    sampleNormalize "foo" vsA.Namespace = .ok "foo.ns1.svc" ∧
    sampleNormalize "foo.ns1.svc" vsB.Namespace = .ok "foo.ns1.svc" ∧
    ∃ n, createVirtualServiceNotes sampleNormalize sampleID MapIter.reversed [vsA, vsB] =
        .ok [n] ∧
      n.attr "host" = some "foo.ns1.svc" ∧
      n.attr "vs_names" = some (vsA.Name ++ ", " ++ vsB.Name) ∧
      n.attr "namespaces" = some (vsA.Namespace ++ ", " ++ vsB.Namespace) :=
  ⟨rfl, rfl, rfl, rfl,
   C6_pair sampleNormalize sampleID MapIter.reversed vsA vsB "foo" "foo.ns1.svc"
    "foo.ns1.svc" rfl rfl rfl rfl⟩

/-! ## Content of a note -/

/-- C7: a returned note with `host` attribute `c` has as `vs_names` the join of
the names of the declaring occurrences of `c` in input order (repetitions kept)
and as `namespaces` the join of their namespaces in the same order; both lists
have the same length, at least two, and are aligned position by position. -/
theorem C7_names_and_namespaces (normalize : String → String → Except E String)
    (computeID : Note → String) (iter : MapIter) (vss : List VirtualService)
    (notes : List Note) (n : Note) (c : String)
    (h : createVirtualServiceNotes normalize computeID iter vss = .ok notes)
    (hn : n ∈ notes) (hc : n.attr "host" = some c) :
    n.attr "vs_names" =
        some (", ".intercalate ((occurrences normalize vss c).map VirtualService.Name)) ∧
      n.attr "namespaces" =
        some (", ".intercalate ((occurrences normalize vss c).map VirtualService.Namespace)) ∧
      2 ≤ ((occurrences normalize vss c).map VirtualService.Name).length ∧
      ((occurrences normalize vss c).map VirtualService.Name).length =
        ((occurrences normalize vss c).map VirtualService.Namespace).length ∧
      List.zip ((occurrences normalize vss c).map VirtualService.Name)
          ((occurrences normalize vss c).map VirtualService.Namespace) =
        (occurrences normalize vss c).map (fun vs => (vs.Name, vs.Namespace)) := by
  obtain ⟨c1, hlen, rfl⟩ := (mem_notes_iff normalize computeID iter vss notes h n).mp hn
  rw [noteFor_attr_host] at hc
  simp only [Option.some.injEq] at hc
  subst hc
  refine ⟨noteFor_attr_names computeID c1 _, noteFor_attr_namespaces computeID c1 _, ?_, ?_, ?_⟩
  · rw [List.length_map]
    exact hlen
  · simp
  · generalize occurrences normalize vss c1 = l
    induction l with
    | nil => rfl
    | cons vs rest ih => simp [ih]

/-- Instance of C7 with an object that occurs twice in the bucket. -/
theorem C7_names_and_namespaces_witness :
    createVirtualServiceNotes sampleNormalize sampleID MapIter.insertion
        [vsSelf, vsA, vsC, vsD] =
      .ok [noteFor sampleID "foo.ns1.svc" [vsSelf, vsSelf, vsA, vsC],
           noteFor sampleID "bar.example.com" [vsC, vsD]] ∧
    (noteFor sampleID "foo.ns1.svc" [vsSelf, vsSelf, vsA, vsC]).attr "vs_names" =
      some "S, S, A, C" ∧
    (noteFor sampleID "foo.ns1.svc" [vsSelf, vsSelf, vsA, vsC]).attr "vs_names" =
        some (", ".intercalate ((occurrences sampleNormalize [vsSelf, vsA, vsC, vsD]
          "foo.ns1.svc").map VirtualService.Name)) ∧
      (noteFor sampleID "foo.ns1.svc" [vsSelf, vsSelf, vsA, vsC]).attr "namespaces" =
        some (", ".intercalate ((occurrences sampleNormalize [vsSelf, vsA, vsC, vsD]
          "foo.ns1.svc").map VirtualService.Namespace)) ∧
      2 ≤ ((occurrences sampleNormalize [vsSelf, vsA, vsC, vsD] "foo.ns1.svc").map
        VirtualService.Name).length ∧
      ((occurrences sampleNormalize [vsSelf, vsA, vsC, vsD] "foo.ns1.svc").map
          VirtualService.Name).length =
        ((occurrences sampleNormalize [vsSelf, vsA, vsC, vsD] "foo.ns1.svc").map
          VirtualService.Namespace).length ∧
      List.zip
          ((occurrences sampleNormalize [vsSelf, vsA, vsC, vsD] "foo.ns1.svc").map
            VirtualService.Name)
          ((occurrences sampleNormalize [vsSelf, vsA, vsC, vsD] "foo.ns1.svc").map
            VirtualService.Namespace) =
        (occurrences sampleNormalize [vsSelf, vsA, vsC, vsD] "foo.ns1.svc").map
          (fun vs => (vs.Name, vs.Namespace)) :=
  ⟨rfl, rfl,
   C7_names_and_namespaces sampleNormalize sampleID MapIter.insertion
    [vsSelf, vsA, vsC, vsD] _ (noteFor sampleID "foo.ns1.svc" [vsSelf, vsSelf, vsA, vsC])
    "foo.ns1.svc" rfl (List.mem_cons_self _ _) rfl⟩

/-! ## One note per host -/

theorem note_host_of_attr (normalize : String → String → Except E String)
    (computeID : Note → String) (iter : MapIter) (vss : List VirtualService)
    (notes : List Note)
    (h : createVirtualServiceNotes normalize computeID iter vss = .ok notes) (n : Note)
    (hn : n ∈ notes) : n.attr "host" = some n.host := by
  obtain ⟨c, _, rfl⟩ := (mem_notes_iff normalize computeID iter vss notes h n).mp hn
  rw [noteFor_attr_host, noteFor_host]

/-- C8: on success no two positions of the returned list carry the same `host`
attribute, and every canonical host with at least two declaring occurrences has
exactly one note. -/
theorem C8_one_note_per_host (normalize : String → String → Except E String)
    (computeID : Note → String) (iter : MapIter) (vss : List VirtualService)
    (notes : List Note)
    (h : createVirtualServiceNotes normalize computeID iter vss = .ok notes) :
    (notes.map (fun n => n.attr "host")).Nodup ∧
      ∀ c, 2 ≤ (occurrences normalize vss c).length →
        ∃! n, n ∈ notes ∧ n.attr "host" = some c := by
  have hnd : (notes.map (fun n => n.attr "host")).Nodup := by
    have h1 : notes.map (fun n => n.attr "host") = (notes.map Note.host).map some := by
      rw [List.map_map]
      apply List.map_congr_left
      intro n hn
      exact note_host_of_attr normalize computeID iter vss notes h n hn
    rw [h1]
    exact (hosts_nodup normalize computeID iter vss notes h).map (Option.some_injective _)
  refine ⟨hnd, ?_⟩
  intro c hlen
  refine ⟨noteFor computeID c (occurrences normalize vss c),
    ⟨(mem_notes_iff normalize computeID iter vss notes h _).mpr ⟨c, hlen, rfl⟩,
      noteFor_attr_host computeID c _⟩, ?_⟩
  rintro n1 ⟨hn1, hc1⟩
  obtain ⟨c1, _, rfl⟩ := (mem_notes_iff normalize computeID iter vss notes h n1).mp hn1
  rw [noteFor_attr_host] at hc1
  simp only [Option.some.injEq] at hc1
  rw [hc1]

/-- Instance of C8 on four objects with two shared hosts. -/
theorem C8_one_note_per_host_witness :
    createVirtualServiceNotes sampleNormalize sampleID MapIter.insertion
        [vsA, vsB, vsC, vsD] =
      .ok [noteFor sampleID "foo.ns1.svc" [vsA, vsB, vsC],
           noteFor sampleID "bar.example.com" [vsC, vsD]] ∧
    (([noteFor sampleID "foo.ns1.svc" [vsA, vsB, vsC],
       noteFor sampleID "bar.example.com" [vsC, vsD]].map (fun n => n.attr "host")).Nodup ∧
      ∀ c, 2 ≤ (occurrences sampleNormalize [vsA, vsB, vsC, vsD] c).length →
        ∃! n, n ∈ [noteFor sampleID "foo.ns1.svc" [vsA, vsB, vsC],
          noteFor sampleID "bar.example.com" [vsC, vsD]] ∧ n.attr "host" = some c) :=
  ⟨rfl, C8_one_note_per_host sampleNormalize sampleID MapIter.insertion
    [vsA, vsB, vsC, vsD] _ rfl⟩

/-! ## Identifier, kind and level -/

/-- C9: the identifier of every returned note is the identifier function applied
to that note with its other fields as returned and its `Id` still empty. -/
theorem C9_identifier (normalize : String → String → Except E String)
    (computeID : Note → String) (iter : MapIter) (vss : List VirtualService)
    (notes : List Note) (n : Note)
    (h : createVirtualServiceNotes normalize computeID iter vss = .ok notes)
    (hn : n ∈ notes) :
    n.Id = computeID { n with Id := "" } := by
  obtain ⟨c, _, rfl⟩ := (mem_notes_iff normalize computeID iter vss notes h n).mp hn
  rfl

/-- Instance of C9 at the second note. -/
theorem C9_identifier_witness :
    createVirtualServiceNotes sampleNormalize sampleID MapIter.insertion
        [vsA, vsB, vsC, vsD] =
      .ok [noteFor sampleID "foo.ns1.svc" [vsA, vsB, vsC],
           noteFor sampleID "bar.example.com" [vsC, vsD]] ∧
    (noteFor sampleID "bar.example.com" [vsC, vsD]).Id = "id:bar.example.com" ∧
    (noteFor sampleID "bar.example.com" [vsC, vsD]).Id =
      sampleID { noteFor sampleID "bar.example.com" [vsC, vsD] with Id := "" } :=
  ⟨rfl, rfl,
   C9_identifier sampleNormalize sampleID MapIter.insertion [vsA, vsB, vsC, vsD] _
    (noteFor sampleID "bar.example.com" [vsC, vsD]) rfl
    (List.mem_cons_of_mem _ (List.mem_cons_self _ _))⟩

/-- C10: every returned note has the kind `host-in-multiple-vs` and the level
`ERROR`, above which the enumeration has no level. -/
theorem C10_kind_and_level (normalize : String → String → Except E String)
    (computeID : Note → String) (iter : MapIter) (vss : List VirtualService)
    (notes : List Note) (n : Note)
    (h : createVirtualServiceNotes normalize computeID iter vss = .ok notes)
    (hn : n ∈ notes) :
    n.Type_ = "host-in-multiple-vs" ∧ n.Level = NoteLevel.ERROR ∧
      ∀ l : NoteLevel, l.rank ≤ n.Level.rank := by
  obtain ⟨c, _, rfl⟩ := (mem_notes_iff normalize computeID iter vss notes h n).mp hn
  refine ⟨rfl, rfl, ?_⟩
  intro l
  show l.rank ≤ NoteLevel.ERROR.rank
  cases l <;> decide

/-- Instance of C10 under reverse iteration. -/
theorem C10_kind_and_level_witness :
    createVirtualServiceNotes sampleNormalize sampleID MapIter.reversed
        [vsA, vsB, vsC, vsD] =
      .ok [noteFor sampleID "bar.example.com" [vsC, vsD],
           noteFor sampleID "foo.ns1.svc" [vsA, vsB, vsC]] ∧
    ((noteFor sampleID "foo.ns1.svc" [vsA, vsB, vsC]).Type_ = "host-in-multiple-vs" ∧
      (noteFor sampleID "foo.ns1.svc" [vsA, vsB, vsC]).Level = NoteLevel.ERROR ∧
      ∀ l : NoteLevel, l.rank ≤ (noteFor sampleID "foo.ns1.svc" [vsA, vsB, vsC]).Level.rank) :=
  ⟨rfl, C10_kind_and_level sampleNormalize sampleID MapIter.reversed [vsA, vsB, vsC, vsD] _
    (noteFor sampleID "foo.ns1.svc" [vsA, vsB, vsC]) rfl
    (List.mem_cons_of_mem _ (List.mem_cons_self _ _))⟩

/-! ## Repeated invocations -/

theorem create_error_iff (normalize : String → String → Except E String)
    (computeID : Note → String) (iter : MapIter) (vss : List VirtualService) (e : E) :
    createVirtualServiceNotes normalize computeID iter vss = .error e ↔
      buildVsMap normalize vss [] = .error e := by
  unfold createVirtualServiceNotes
  cases hb : buildVsMap normalize vss [] with
  | error err => simp
  | ok m => simp

/-- C11, as stated, fails: the same input, normalizer and identifier function
give two different lists when the map is iterated in two different orders. -/
theorem C11_not_identical :
    ∃ n1 n2, createVirtualServiceNotes sampleNormalize sampleID MapIter.insertion
        [vsA, vsB, vsC, vsD] = .ok n1 ∧
      createVirtualServiceNotes sampleNormalize sampleID MapIter.reversed
        [vsA, vsB, vsC, vsD] = .ok n2 ∧
      n1.map Note.host = ["foo.ns1.svc", "bar.example.com"] ∧
      n2.map Note.host = ["bar.example.com", "foo.ns1.svc"] ∧ n1 ≠ n2 := by
  refine ⟨_, _, rfl, rfl, rfl, rfl, ?_⟩
  intro heq
  have h1 := congrArg (fun l => l.map Note.host) heq
  revert h1
  show ¬ (["foo.ns1.svc", "bar.example.com"] = ["bar.example.com", "foo.ns1.svc"])
  decide

/-- C11, amended: two invocations on the same input with the same normalizer and
identifier function fail with the same error or return the same notes, with the
same identifiers, up to the order of the list; under the same iteration order
the two lists are equal. -/
theorem C11_same_up_to_order (normalize : String → String → Except E String)
    (computeID : Note → String) (iter1 iter2 : MapIter) (vss : List VirtualService) :
    (∀ e, createVirtualServiceNotes normalize computeID iter1 vss = .error e →
        createVirtualServiceNotes normalize computeID iter2 vss = .error e) ∧
    (∀ n1, createVirtualServiceNotes normalize computeID iter1 vss = .ok n1 →
        ∃ n2, createVirtualServiceNotes normalize computeID iter2 vss = .ok n2 ∧
          List.Perm n1 n2 ∧ n1.length = n2.length ∧
          (iter1.order = iter2.order → n1 = n2)) := by
  constructor
  · intro e h
    rw [create_error_iff] at h ⊢
    exact h
  · intro n1 h
    obtain ⟨m, hb, _, hn⟩ := create_ok_shape normalize computeID iter1 vss n1 h
    have h2 : createVirtualServiceNotes normalize computeID iter2 vss =
        .ok (assignIds computeID (collectNotes (iter2.order m) [])) := by
      unfold createVirtualServiceNotes
      rw [hb]
    obtain ⟨m2, hb2, _, hn2⟩ := create_ok_shape normalize computeID iter2 vss _ h2
    have hm : m2 = m := by
      rw [hb] at hb2
      exact (Except.ok.inj hb2).symm
    subst hm
    have hp : List.Perm n1 (assignIds computeID (collectNotes (iter2.order m2) [])) := by
      rw [hn, hn2]
      exact (((iter1.perm m2).trans (iter2.perm m2).symm).filter _).map _
    refine ⟨_, h2, hp, hp.length_eq, ?_⟩
    intro ho
    rw [hn, hn2, ho]

/-- Instance of the amended C11: insertion order against reverse order. -/
theorem C11_same_up_to_order_witness :
    createVirtualServiceNotes sampleNormalize sampleID MapIter.insertion
        [vsA, vsB, vsC, vsD] =
      .ok [noteFor sampleID "foo.ns1.svc" [vsA, vsB, vsC],
           noteFor sampleID "bar.example.com" [vsC, vsD]] ∧
    ∃ n2, createVirtualServiceNotes sampleNormalize sampleID MapIter.reversed
        [vsA, vsB, vsC, vsD] = .ok n2 ∧
      List.Perm [noteFor sampleID "foo.ns1.svc" [vsA, vsB, vsC],
           noteFor sampleID "bar.example.com" [vsC, vsD]] n2 ∧
      [noteFor sampleID "foo.ns1.svc" [vsA, vsB, vsC],
           noteFor sampleID "bar.example.com" [vsC, vsD]].length = n2.length ∧
      (MapIter.insertion.order = MapIter.reversed.order →
        [noteFor sampleID "foo.ns1.svc" [vsA, vsB, vsC],
           noteFor sampleID "bar.example.com" [vsC, vsD]] = n2) :=
  ⟨rfl, (C11_same_up_to_order sampleNormalize sampleID MapIter.insertion MapIter.reversed
    [vsA, vsB, vsC, vsD]).2 _ rfl⟩

/-! ## Templates and attributes -/

theorem noteFor_Summary (computeID : Note → String) (c : String) (l : List VirtualService) :
    (noteFor computeID c l).Summary = vsHostSummary := rfl

theorem noteFor_Msg (computeID : Note → String) (c : String) (l : List VirtualService) :
    (noteFor computeID c l).Msg = vsHostMsg := rfl

/-- C12, as stated, fails: the summary of the note for `foo.ns1.svc` still holds
the characters dollar, opening brace, and does not hold the host. -/
theorem C12_placeholders_remain :
    ∃ notes n, createVirtualServiceNotes sampleNormalize sampleID MapIter.insertion
        [vsA, vsB] = .ok notes ∧ n ∈ notes ∧ n.attr "host" = some "foo.ns1.svc" ∧
      "$\x7b".toList <:+: n.Summary.toList ∧
      "$\x7b".toList <:+: n.Msg.toList ∧
      ¬ ("foo.ns1.svc".toList <:+: n.Summary.toList) := by
  refine ⟨_, noteFor sampleID "foo.ns1.svc" [vsA, vsB], rfl, List.mem_singleton.mpr rfl, rfl,
    ?_, ?_, ?_⟩
  · exact ⟨"Multiple VirtualServices define the same host - ".toList, "host\x7d".toList, rfl⟩
  · exact ⟨"The VirtualServices ".toList, _, rfl⟩
  · rw [noteFor_Summary]
    decide

/-- C12, amended: in every returned note the summary and the message are the two
template constants themselves, unsubstituted; the values for their placeholders
are the attributes `host`, `vs_names` and `namespaces` of the same note. -/
theorem C12_templates_verbatim (normalize : String → String → Except E String)
    (computeID : Note → String) (iter : MapIter) (vss : List VirtualService)
    (notes : List Note) (n : Note)
    (h : createVirtualServiceNotes normalize computeID iter vss = .ok notes)
    (hn : n ∈ notes) :
    n.Summary = vsHostSummary ∧ n.Msg = vsHostMsg ∧
      placeholders n.Summary = ["host"] ∧
      placeholders n.Msg = ["vs_names", "namespaces", "host"] ∧
      ∃ c, n.attr "host" = some c ∧
        n.attr "vs_names" =
          some (", ".intercalate ((occurrences normalize vss c).map VirtualService.Name)) ∧
        n.attr "namespaces" =
          some (", ".intercalate
            ((occurrences normalize vss c).map VirtualService.Namespace)) := by
  obtain ⟨c, _, rfl⟩ := (mem_notes_iff normalize computeID iter vss notes h n).mp hn
  refine ⟨rfl, rfl, ?_, ?_, c, noteFor_attr_host computeID c _,
    noteFor_attr_names computeID c _, noteFor_attr_namespaces computeID c _⟩
  · rw [noteFor_Summary]
    decide
  · rw [noteFor_Msg]
    decide

/-- Instance of the amended C12 on two objects. -/
theorem C12_templates_verbatim_witness :
    createVirtualServiceNotes sampleNormalize sampleID MapIter.insertion [vsA, vsB] =
      .ok [noteFor sampleID "foo.ns1.svc" [vsA, vsB]] ∧
    ((noteFor sampleID "foo.ns1.svc" [vsA, vsB]).Summary = vsHostSummary ∧
      (noteFor sampleID "foo.ns1.svc" [vsA, vsB]).Msg = vsHostMsg ∧
      placeholders (noteFor sampleID "foo.ns1.svc" [vsA, vsB]).Summary = ["host"] ∧
      placeholders (noteFor sampleID "foo.ns1.svc" [vsA, vsB]).Msg =
        ["vs_names", "namespaces", "host"] ∧
      ∃ c, (noteFor sampleID "foo.ns1.svc" [vsA, vsB]).attr "host" = some c ∧
        (noteFor sampleID "foo.ns1.svc" [vsA, vsB]).attr "vs_names" =
          some (", ".intercalate
            ((occurrences sampleNormalize [vsA, vsB] c).map VirtualService.Name)) ∧
        (noteFor sampleID "foo.ns1.svc" [vsA, vsB]).attr "namespaces" =
          some (", ".intercalate
            ((occurrences sampleNormalize [vsA, vsB] c).map VirtualService.Namespace))) :=
  ⟨rfl, C12_templates_verbatim sampleNormalize sampleID MapIter.insertion [vsA, vsB] _
    (noteFor sampleID "foo.ns1.svc" [vsA, vsB]) rfl (List.mem_singleton.mpr rfl)⟩

/-! ## Objects without hosts -/

theorem buildVsMap_append (normalize : String → String → Except E String)
    (xs ys : List VirtualService) :
    ∀ m : VsMap, buildVsMap normalize (xs ++ ys) m =
      match buildVsMap normalize xs m with
      | .error err => .error err
      | .ok m1 => buildVsMap normalize ys m1 := by
  induction xs with
  | nil => intro m; rfl
  | cons vs rest ih =>
    intro m
    simp only [List.cons_append, buildVsMap]
    cases addHosts normalize vs vs.Hosts m with
    | error err => rfl
    | ok m1 => exact ih m1

theorem buildVsMap_cons_no_hosts (normalize : String → String → Except E String)
    (v : VirtualService) (ys : List VirtualService) (m : VsMap) (hv : v.Hosts = []) :
    buildVsMap normalize (v :: ys) m = buildVsMap normalize ys m := by
  simp only [buildVsMap, hv, addHosts]

theorem buildVsMap_no_hosts (normalize : String → String → Except E String)
    (ws : List VirtualService) (m : VsMap) (hall : ∀ w ∈ ws, w.Hosts = []) :
    buildVsMap normalize ws m = .ok m := by
  induction ws with
  | nil => rfl
  | cons w rest ih =>
    rw [buildVsMap_cons_no_hosts normalize w rest m (hall w (List.mem_cons_self _ _))]
    exact ih (fun x hx => hall x (List.mem_cons_of_mem _ hx))

/-- C13: an object with an empty hosts list, put in or taken out at any position,
leaves the result (error or notes) unchanged, and an input made of such objects
only gives the empty list and no error under every normalizer, also one that
rejects every host. -/
theorem C13_no_hosts (normalize : String → String → Except E String)
    (computeID : Note → String) (iter : MapIter) (xs ys ws : List VirtualService)
    (v : VirtualService) (hv : v.Hosts = []) (hall : ∀ w ∈ ws, w.Hosts = []) :
    createVirtualServiceNotes normalize computeID iter (xs ++ v :: ys) =
        createVirtualServiceNotes normalize computeID iter (xs ++ ys) ∧
      ∀ normalize2 : String → String → Except E String,
        createVirtualServiceNotes normalize2 computeID iter ws = .ok [] := by
  constructor
  · unfold createVirtualServiceNotes
    rw [buildVsMap_append, buildVsMap_append]
    cases buildVsMap normalize xs [] with
    | error err => rfl
    | ok m1 =>
      simp only []
      rw [buildVsMap_cons_no_hosts normalize v ys m1 hv]
  · intro normalize2
    have ho : iter.order [] = [] := List.perm_nil.mp (iter.perm [])
    unfold createVirtualServiceNotes
    rw [buildVsMap_no_hosts normalize2 ws [] hall]
    simp only [ho]
    rfl

/-- Instance of C13: an object without hosts between `A` and `B`, and an input
of two such objects under the normalizer that rejects every host. -/
theorem C13_no_hosts_witness :
    vsEmpty.Hosts = [] ∧ (∀ w ∈ [vsEmpty, vsEmpty], w.Hosts = []) ∧
    (createVirtualServiceNotes rejectAll sampleID MapIter.insertion [vsEmpty, vsEmpty] =
      .ok []) ∧
    (createVirtualServiceNotes sampleNormalize sampleID MapIter.insertion
        ([vsA] ++ vsEmpty :: [vsB]) =
      createVirtualServiceNotes sampleNormalize sampleID MapIter.insertion ([vsA] ++ [vsB]) ∧
      ∀ normalize2 : String → String → Except String String,
        createVirtualServiceNotes normalize2 sampleID MapIter.insertion [vsEmpty, vsEmpty] =
          .ok []) :=
  ⟨rfl, by decide, rfl,
   C13_no_hosts sampleNormalize sampleID MapIter.insertion [vsA] [vsB] [vsEmpty, vsEmpty]
    vsEmpty rfl (by decide)⟩

/-! ## Attribute keys -/

/-- C14, as stated, fails: the note for `foo.ns1.svc` has no attribute
`object_names`; its second key is `vs_names`. -/
theorem C14_no_object_names :
    ∃ notes n, createVirtualServiceNotes sampleNormalize sampleID MapIter.insertion
        [vsA, vsB] = .ok notes ∧ n ∈ notes ∧
      n.attr "object_names" = none ∧ n.attr "vs_names" = some "A, B" ∧
      n.Attr.map Prod.fst = ["host", "vs_names", "namespaces"] :=
  ⟨_, noteFor sampleID "foo.ns1.svc" [vsA, vsB], rfl, List.mem_singleton.mpr rfl,
    rfl, rfl, rfl⟩

/-- C14, amended: the attributes of every returned note have exactly the three
keys `host`, `vs_names` and `namespaces`, and no others. -/
theorem C14_attribute_keys (normalize : String → String → Except E String)
    (computeID : Note → String) (iter : MapIter) (vss : List VirtualService)
    (notes : List Note) (n : Note)
    (h : createVirtualServiceNotes normalize computeID iter vss = .ok notes)
    (hn : n ∈ notes) :
    n.Attr.map Prod.fst = ["host", "vs_names", "namespaces"] ∧
      ∀ k : String, (n.attr k).isSome = true ↔
        (k = "host" ∨ k = "vs_names" ∨ k = "namespaces") := by
  obtain ⟨c, _, rfl⟩ := (mem_notes_iff normalize computeID iter vss notes h n).mp hn
  refine ⟨by rw [noteFor_Attr]; rfl, ?_⟩
  intro k
  by_cases h1 : k = "host"
  · subst h1
    rw [noteFor_attr_host]
    simp
  by_cases h2 : k = "vs_names"
  · subst h2
    rw [noteFor_attr_names]
    simp
  by_cases h3 : k = "namespaces"
  · subst h3
    rw [noteFor_attr_namespaces]
    simp
  have e1 : ("host" == k) = false := beq_eq_false_iff_ne.mpr (fun e => h1 e.symm)
  have e2 : ("vs_names" == k) = false := beq_eq_false_iff_ne.mpr (fun e => h2 e.symm)
  have e3 : ("namespaces" == k) = false := beq_eq_false_iff_ne.mpr (fun e => h3 e.symm)
  simp [Note.attr, noteFor_Attr, List.find?, e1, e2, e3, h1, h2, h3]

/-- Instance of the amended C14 on two objects. -/
theorem C14_attribute_keys_witness :
    createVirtualServiceNotes sampleNormalize sampleID MapIter.insertion [vsA, vsB] =
      .ok [noteFor sampleID "foo.ns1.svc" [vsA, vsB]] ∧
    ((noteFor sampleID "foo.ns1.svc" [vsA, vsB]).Attr.map Prod.fst =
        ["host", "vs_names", "namespaces"] ∧
      ∀ k : String, ((noteFor sampleID "foo.ns1.svc" [vsA, vsB]).attr k).isSome = true ↔
        (k = "host" ∨ k = "vs_names" ∨ k = "namespaces")) :=
  ⟨rfl, C14_attribute_keys sampleNormalize sampleID MapIter.insertion [vsA, vsB] _
    (noteFor sampleID "foo.ns1.svc" [vsA, vsB]) rfl (List.mem_singleton.mpr rfl)⟩

/-! ## Exact characterisation -/

theorem canonicalHosts_cons (normalize : String → String → Except E String)
    (vs : VirtualService) (rest : List VirtualService) :
    canonicalHosts normalize (vs :: rest) =
      (vs.Hosts.map (fun h => (h, vs.Namespace))).filterMap (fun p =>
        match normalize p.1 p.2 with
        | .ok c => some c
        | .error _ => none) ++ canonicalHosts normalize rest := by
  simp only [canonicalHosts, declaredPairs_cons, List.filterMap_append]

theorem own_occurrences_length (normalize : String → String → Except E String)
    (vs : VirtualService) (ns c : String) (hosts : List String) :
    ((hosts.filter (fun h => normalizesTo normalize h ns c)).map (fun _ => vs)).length =
      ((hosts.map (fun h => (h, ns))).filterMap (fun p =>
        match normalize p.1 p.2 with
        | .ok c => some c
        | .error _ => none)).count c := by
  induction hosts with
  | nil => rfl
  | cons host hosts ih =>
    simp only [List.length_map] at ih ⊢
    cases hn : normalize host ns with
    | error err =>
      have hf : normalizesTo normalize host ns c = false := by simp [normalizesTo, hn]
      simp only [List.map_cons, List.filterMap_cons, List.filter_cons, hf, hn]
      simpa using ih
    | ok c1 =>
      by_cases hc : c1 = c
      · subst hc
        have hf : normalizesTo normalize host ns c1 = true := by simp [normalizesTo, hn]
        simp only [List.map_cons, List.filterMap_cons, List.filter_cons, hf, hn]
        simpa using ih
      · have hf : normalizesTo normalize host ns c = false := by simp [normalizesTo, hn, hc]
        simp only [List.map_cons, List.filterMap_cons, List.filter_cons, hf, hn]
        have hc1 : ¬ c = c1 := fun e => hc e.symm
        simpa [List.count_cons, hc, hc1] using ih

theorem occurrences_length (normalize : String → String → Except E String)
    (vss : List VirtualService) (c : String) :
    (occurrences normalize vss c).length = (canonicalHosts normalize vss).count c := by
  induction vss with
  | nil => rfl
  | cons vs rest ih =>
    rw [occurrences_cons, canonicalHosts_cons, List.length_append, List.count_append, ih,
      own_occurrences_length]

theorem exists_attr_host_iff (normalize : String → String → Except E String)
    (computeID : Note → String) (iter : MapIter) (vss : List VirtualService)
    (notes : List Note)
    (h : createVirtualServiceNotes normalize computeID iter vss = .ok notes) (c : String) :
    (∃ n ∈ notes, n.attr "host" = some c) ↔ 2 ≤ (occurrences normalize vss c).length := by
  constructor
  · rintro ⟨n, hn, hc⟩
    obtain ⟨c1, hlen, rfl⟩ := (mem_notes_iff normalize computeID iter vss notes h n).mp hn
    rw [noteFor_attr_host] at hc
    simp only [Option.some.injEq] at hc
    rw [← hc]
    exact hlen
  · intro hlen
    exact ⟨_, (mem_notes_iff normalize computeID iter vss notes h _).mpr ⟨c, hlen, rfl⟩,
      noteFor_attr_host computeID c _⟩

/-- C15: on success a note with `host` attribute `c` is returned exactly when at
least two declared host occurrences normalize to `c`; the number of notes is the
number of such canonical hosts, and when the canonical hosts of all occurrences
are pairwise distinct the result is empty. -/
theorem C15_characterisation (normalize : String → String → Except E String)
    (computeID : Note → String) (iter : MapIter) (vss : List VirtualService)
    (notes : List Note)
    (h : createVirtualServiceNotes normalize computeID iter vss = .ok notes) :
    (∀ c, (∃ n ∈ notes, n.attr "host" = some c) ↔
        2 ≤ (canonicalHosts normalize vss).count c) ∧
      notes.length = ((canonicalHosts normalize vss).dedup.filter
        (fun c => decide (2 ≤ (canonicalHosts normalize vss).count c))).length ∧
      ((canonicalHosts normalize vss).Nodup → notes = []) := by
  refine ⟨?_, ?_, ?_⟩
  · intro c
    rw [exists_attr_host_iff normalize computeID iter vss notes h c, occurrences_length]
  · have hp := (hosts_perm_conflictHosts normalize computeID iter vss notes h).length_eq
    rw [List.length_map] at hp
    rw [hp, conflictHosts]
    congr 2
    funext c
    rw [occurrences_length]
  · intro hnd
    apply List.eq_nil_iff_forall_not_mem.mpr
    intro n hn
    obtain ⟨c, hlen, _⟩ := (mem_notes_iff normalize computeID iter vss notes h n).mp hn
    rw [occurrences_length] at hlen
    have := List.nodup_iff_count_le_one.mp hnd c
    omega

/-- Instance of C15 on four objects with two shared hosts. -/
theorem C15_characterisation_witness :
    createVirtualServiceNotes sampleNormalize sampleID MapIter.insertion
        [vsA, vsB, vsC, vsD] =
      .ok [noteFor sampleID "foo.ns1.svc" [vsA, vsB, vsC],
           noteFor sampleID "bar.example.com" [vsC, vsD]] ∧
    canonicalHosts sampleNormalize [vsA, vsB, vsC, vsD] =
      ["foo.ns1.svc", "foo.ns1.svc", "bar.example.com", "foo.ns1.svc", "bar.example.com"] ∧
    ((∀ c, (∃ n ∈ [noteFor sampleID "foo.ns1.svc" [vsA, vsB, vsC],
              noteFor sampleID "bar.example.com" [vsC, vsD]], n.attr "host" = some c) ↔
        2 ≤ (canonicalHosts sampleNormalize [vsA, vsB, vsC, vsD]).count c) ∧
      [noteFor sampleID "foo.ns1.svc" [vsA, vsB, vsC],
        noteFor sampleID "bar.example.com" [vsC, vsD]].length =
        ((canonicalHosts sampleNormalize [vsA, vsB, vsC, vsD]).dedup.filter
          (fun c => decide
            (2 ≤ (canonicalHosts sampleNormalize [vsA, vsB, vsC, vsD]).count c))).length ∧
      ((canonicalHosts sampleNormalize [vsA, vsB, vsC, vsD]).Nodup →
        [noteFor sampleID "foo.ns1.svc" [vsA, vsB, vsC],
          noteFor sampleID "bar.example.com" [vsC, vsD]] = [])) :=
  ⟨rfl, rfl, C15_characterisation sampleNormalize sampleID MapIter.insertion
    [vsA, vsB, vsC, vsD] _ rfl⟩

/-! ## Adding objects -/

theorem declaredPairs_append (xs ys : List VirtualService) :
    declaredPairs (xs ++ ys) = declaredPairs xs ++ declaredPairs ys := by
  simp [declaredPairs]

theorem occurrences_append (normalize : String → String → Except E String)
    (xs ys : List VirtualService) (c : String) :
    occurrences normalize (xs ++ ys) c =
      occurrences normalize xs c ++ occurrences normalize ys c := by
  simp [occurrences]

/-- C16: when normalization succeeds on `xs` and on `ys`, every host reported on
`xs` is reported on `xs ++ ys` and on `ys ++ xs`, whatever the iteration orders
of the three invocations. -/
theorem C16_monotone (normalize : String → String → Except E String)
    (computeID : Note → String) (iter1 iter2 iter3 : MapIter) (xs ys : List VirtualService)
    (n1 : List Note)
    (hx : ∀ p ∈ declaredPairs xs, ∃ c, normalize p.1 p.2 = .ok c)
    (hy : ∀ p ∈ declaredPairs ys, ∃ c, normalize p.1 p.2 = .ok c)
    (h1 : createVirtualServiceNotes normalize computeID iter1 xs = .ok n1) :
    ∃ n2 n3, createVirtualServiceNotes normalize computeID iter2 (xs ++ ys) = .ok n2 ∧
      createVirtualServiceNotes normalize computeID iter3 (ys ++ xs) = .ok n3 ∧
      ∀ c, (∃ n ∈ n1, n.attr "host" = some c) →
        (∃ n ∈ n2, n.attr "host" = some c) ∧ (∃ n ∈ n3, n.attr "host" = some c) := by
  have hxy : ∀ p ∈ declaredPairs (xs ++ ys), ∃ c, normalize p.1 p.2 = .ok c := by
    intro p hp
    rw [declaredPairs_append] at hp
    rcases List.mem_append.mp hp with hp1 | hp1
    · exact hx p hp1
    · exact hy p hp1
  have hyx : ∀ p ∈ declaredPairs (ys ++ xs), ∃ c, normalize p.1 p.2 = .ok c := by
    intro p hp
    rw [declaredPairs_append] at hp
    rcases List.mem_append.mp hp with hp1 | hp1
    · exact hy p hp1
    · exact hx p hp1
  obtain ⟨n2, h2⟩ := create_ok_of_all normalize computeID iter2 (xs ++ ys) hxy
  obtain ⟨n3, h3⟩ := create_ok_of_all normalize computeID iter3 (ys ++ xs) hyx
  refine ⟨n2, n3, h2, h3, ?_⟩
  intro c hc
  have hlen := (exists_attr_host_iff normalize computeID iter1 xs n1 h1 c).mp hc
  constructor
  · apply (exists_attr_host_iff normalize computeID iter2 (xs ++ ys) n2 h2 c).mpr
    rw [occurrences_append, List.length_append]
    omega
  · apply (exists_attr_host_iff normalize computeID iter3 (ys ++ xs) n3 h3 c).mpr
    rw [occurrences_append, List.length_append]
    omega

/-- Instance of C16: the conflict of `A` and `B` stays when `C` and `D` are added
before or after. -/
theorem C16_monotone_witness :
    (∀ p ∈ declaredPairs [vsA, vsB], ∃ c, sampleNormalize p.1 p.2 = .ok c) ∧
    (∀ p ∈ declaredPairs [vsC, vsD], ∃ c, sampleNormalize p.1 p.2 = .ok c) ∧
    createVirtualServiceNotes sampleNormalize sampleID MapIter.insertion [vsA, vsB] =
      .ok [noteFor sampleID "foo.ns1.svc" [vsA, vsB]] ∧
    ∃ n2 n3, createVirtualServiceNotes sampleNormalize sampleID MapIter.reversed
        ([vsA, vsB] ++ [vsC, vsD]) = .ok n2 ∧
      createVirtualServiceNotes sampleNormalize sampleID MapIter.insertion
        ([vsC, vsD] ++ [vsA, vsB]) = .ok n3 ∧
      ∀ c, (∃ n ∈ [noteFor sampleID "foo.ns1.svc" [vsA, vsB]], n.attr "host" = some c) →
        (∃ n ∈ n2, n.attr "host" = some c) ∧ (∃ n ∈ n3, n.attr "host" = some c) :=
  ⟨(firstError_eq_none_iff sampleNormalize _).mp rfl,
   (firstError_eq_none_iff sampleNormalize _).mp rfl, rfl,
   C16_monotone sampleNormalize sampleID MapIter.insertion MapIter.reversed
    MapIter.insertion [vsA, vsB] [vsC, vsD] _
    ((firstError_eq_none_iff sampleNormalize _).mp rfl)
    ((firstError_eq_none_iff sampleNormalize _).mp rfl) rfl⟩

/-! ## Order of the input -/

theorem declaredPairs_reordered (mid vss2 : List VirtualService)
    (hre : List.Forall₂ hostsReordered mid vss2) :
    List.Perm (declaredPairs mid) (declaredPairs vss2) := by
  induction hre with
  | nil => exact List.Perm.refl _
  | @cons a b l1 l2 hab _ ih =>
    rw [declaredPairs_cons, declaredPairs_cons]
    obtain ⟨_, hns, hh⟩ := hab
    rw [hns]
    exact (hh.map _).append ih

theorem namedOccurrences_reordered (normalize : String → String → Except E String)
    (c : String) (mid vss2 : List VirtualService)
    (hre : List.Forall₂ hostsReordered mid vss2) :
    List.Perm ((occurrences normalize mid c).map (fun vs => (vs.Name, vs.Namespace)))
      ((occurrences normalize vss2 c).map (fun vs => (vs.Name, vs.Namespace))) := by
  induction hre with
  | nil => exact List.Perm.refl _
  | @cons a b l1 l2 hab _ ih =>
    rw [occurrences_cons, occurrences_cons, List.map_append, List.map_append]
    obtain ⟨hname, hns, hh⟩ := hab
    refine List.Perm.append ?_ ih
    rw [List.map_map, List.map_map, hns]
    have hf : ((fun vs : VirtualService => (vs.Name, vs.Namespace)) ∘ fun (_ : String) => a) =
        ((fun vs : VirtualService => (vs.Name, vs.Namespace)) ∘ fun (_ : String) => b) := by
      funext x
      simp [hname, hns]
    rw [hf]
    exact (hh.filter _).map _

/-- C17: for a permutation of the objects followed by a reordering of the hosts
inside each object, on success both inputs report the same set of `host`
attributes in the same number of notes, and for every host the (name, namespace)
entries behind `vs_names` and `namespaces` are the same up to order. -/
theorem C17_order_independent (normalize : String → String → Except E String)
    (computeID : Note → String) (iter1 iter2 : MapIter) (vss mid vss2 : List VirtualService)
    (n1 : List Note)
    (hperm : List.Perm vss mid) (hre : List.Forall₂ hostsReordered mid vss2)
    (h1 : createVirtualServiceNotes normalize computeID iter1 vss = .ok n1) :
    ∃ n2, createVirtualServiceNotes normalize computeID iter2 vss2 = .ok n2 ∧
      (∀ c, (∃ n ∈ n1, n.attr "host" = some c) ↔ (∃ n ∈ n2, n.attr "host" = some c)) ∧
      n1.length = n2.length ∧
      ∀ c, List.Perm ((occurrences normalize vss c).map (fun vs => (vs.Name, vs.Namespace)))
        ((occurrences normalize vss2 c).map (fun vs => (vs.Name, vs.Namespace))) := by
  have hpairs : List.Perm (declaredPairs vss) (declaredPairs vss2) :=
    (List.Perm.flatMap_right _ hperm).trans (declaredPairs_reordered mid vss2 hre)
  have hocc : ∀ c, List.Perm
      ((occurrences normalize vss c).map (fun vs => (vs.Name, vs.Namespace)))
      ((occurrences normalize vss2 c).map (fun vs => (vs.Name, vs.Namespace))) := by
    intro c
    exact ((List.Perm.flatMap_right _ hperm).map _).trans
      (namedOccurrences_reordered normalize c mid vss2 hre)
  have hlen : ∀ c, (occurrences normalize vss c).length =
      (occurrences normalize vss2 c).length := by
    intro c
    have := (hocc c).length_eq
    simpa using this
  have hall : ∀ p ∈ declaredPairs vss2, ∃ c, normalize p.1 p.2 = .ok c := by
    intro p hp
    have hp1 := hpairs.mem_iff.mpr hp
    cases hf : firstError normalize (declaredPairs vss) with
    | none => exact (firstError_eq_none_iff normalize _).mp hf p hp1
    | some e =>
      rw [create_error normalize computeID iter1 vss e hf] at h1
      exact Except.noConfusion h1
  obtain ⟨n2, h2⟩ := create_ok_of_all normalize computeID iter2 vss2 hall
  have hiff : ∀ c, (∃ n ∈ n1, n.attr "host" = some c) ↔ (∃ n ∈ n2, n.attr "host" = some c) := by
    intro c
    rw [exists_attr_host_iff normalize computeID iter1 vss n1 h1 c,
      exists_attr_host_iff normalize computeID iter2 vss2 n2 h2 c, hlen c]
  refine ⟨n2, h2, hiff, ?_, hocc⟩
  have hp : List.Perm (n1.map Note.host) (n2.map Note.host) := by
    apply (List.perm_ext_iff_of_nodup (hosts_nodup normalize computeID iter1 vss n1 h1)
      (hosts_nodup normalize computeID iter2 vss2 n2 h2)).mpr
    intro c
    rw [mem_hosts_iff normalize computeID iter1 vss n1 h1 c,
      mem_hosts_iff normalize computeID iter2 vss2 n2 h2 c, hlen c]
  simpa using hp.length_eq

/-- Instance of C17: the objects in reverse order, with the hosts of `C` swapped. -/
theorem C17_order_independent_witness :
    List.Perm [vsA, vsB, vsC, vsD] [vsD, vsC, vsB, vsA] ∧
    List.Forall₂ hostsReordered [vsD, vsC, vsB, vsA]
      [vsD, ⟨"C", "ns2", ["foo.ns1.svc", "bar.example.com"]⟩, vsB, vsA] ∧
    createVirtualServiceNotes sampleNormalize sampleID MapIter.insertion
        [vsA, vsB, vsC, vsD] =
      .ok [noteFor sampleID "foo.ns1.svc" [vsA, vsB, vsC],
           noteFor sampleID "bar.example.com" [vsC, vsD]] ∧
    ∃ n2, createVirtualServiceNotes sampleNormalize sampleID MapIter.insertion
        [vsD, ⟨"C", "ns2", ["foo.ns1.svc", "bar.example.com"]⟩, vsB, vsA] = .ok n2 ∧
      (∀ c, (∃ n ∈ [noteFor sampleID "foo.ns1.svc" [vsA, vsB, vsC],
            noteFor sampleID "bar.example.com" [vsC, vsD]], n.attr "host" = some c) ↔
          (∃ n ∈ n2, n.attr "host" = some c)) ∧
      [noteFor sampleID "foo.ns1.svc" [vsA, vsB, vsC],
        noteFor sampleID "bar.example.com" [vsC, vsD]].length = n2.length ∧
      ∀ c, List.Perm
        ((occurrences sampleNormalize [vsA, vsB, vsC, vsD] c).map
          (fun vs => (vs.Name, vs.Namespace)))
        ((occurrences sampleNormalize
          [vsD, ⟨"C", "ns2", ["foo.ns1.svc", "bar.example.com"]⟩, vsB, vsA] c).map
          (fun vs => (vs.Name, vs.Namespace))) :=
  ⟨List.reverse_perm [vsD, vsC, vsB, vsA],
   List.Forall₂.cons ⟨rfl, rfl, List.Perm.refl _⟩
    (List.Forall₂.cons ⟨rfl, rfl, List.Perm.swap _ _ _⟩
      (List.Forall₂.cons ⟨rfl, rfl, List.Perm.refl _⟩
        (List.Forall₂.cons ⟨rfl, rfl, List.Perm.refl _⟩ List.Forall₂.nil))),
   rfl,
   C17_order_independent sampleNormalize sampleID MapIter.insertion MapIter.insertion
    [vsA, vsB, vsC, vsD] [vsD, vsC, vsB, vsA]
    [vsD, ⟨"C", "ns2", ["foo.ns1.svc", "bar.example.com"]⟩, vsB, vsA] _
    (List.reverse_perm [vsD, vsC, vsB, vsA])
    (List.Forall₂.cons ⟨rfl, rfl, List.Perm.refl _⟩
      (List.Forall₂.cons ⟨rfl, rfl, List.Perm.swap _ _ _⟩
        (List.Forall₂.cons ⟨rfl, rfl, List.Perm.refl _⟩
          (List.Forall₂.cons ⟨rfl, rfl, List.Perm.refl _⟩ List.Forall₂.nil))))
    rfl⟩

/-! ## Placeholders and attribute keys -/

/-- C18: every placeholder name occurring in the summary or in the message of a
returned note is a key of the attributes of that note. -/
theorem C18_placeholders_are_keys (normalize : String → String → Except E String)
    (computeID : Note → String) (iter : MapIter) (vss : List VirtualService)
    (notes : List Note) (n : Note) (k : String)
    (h : createVirtualServiceNotes normalize computeID iter vss = .ok notes)
    (hn : n ∈ notes) (hk : k ∈ placeholders n.Summary ++ placeholders n.Msg) :
    (n.attr k).isSome = true ∧ k ∈ n.Attr.map Prod.fst := by
  obtain ⟨c, _, rfl⟩ := (mem_notes_iff normalize computeID iter vss notes h n).mp hn
  have hs : placeholders vsHostSummary = ["host"] := by decide
  have hm : placeholders vsHostMsg = ["vs_names", "namespaces", "host"] := by decide
  rw [noteFor_Summary, noteFor_Msg, hs, hm] at hk
  rw [noteFor_Attr]
  simp only [List.cons_append, List.nil_append, List.mem_cons, List.mem_singleton] at hk
  rcases hk with rfl | rfl | rfl | rfl | hk
  · exact ⟨by rw [noteFor_attr_host]; rfl, by simp⟩
  · exact ⟨by rw [noteFor_attr_names]; rfl, by simp⟩
  · exact ⟨by rw [noteFor_attr_namespaces]; rfl, by simp⟩
  · exact ⟨by rw [noteFor_attr_host]; rfl, by simp⟩
  · exact absurd hk (List.not_mem_nil _)

/-- Instance of C18: the placeholder `vs_names` of the message. -/
theorem C18_placeholders_are_keys_witness :
    createVirtualServiceNotes sampleNormalize sampleID MapIter.insertion [vsA, vsB] =
      .ok [noteFor sampleID "foo.ns1.svc" [vsA, vsB]] ∧
    "vs_names" ∈ placeholders (noteFor sampleID "foo.ns1.svc" [vsA, vsB]).Summary ++
      placeholders (noteFor sampleID "foo.ns1.svc" [vsA, vsB]).Msg ∧
    (((noteFor sampleID "foo.ns1.svc" [vsA, vsB]).attr "vs_names").isSome = true ∧
      "vs_names" ∈ (noteFor sampleID "foo.ns1.svc" [vsA, vsB]).Attr.map Prod.fst) :=
  ⟨rfl, by decide,
   C18_placeholders_are_keys sampleNormalize sampleID MapIter.insertion [vsA, vsB] _
    (noteFor sampleID "foo.ns1.svc" [vsA, vsB]) "vs_names" rfl (List.mem_singleton.mpr rfl)
    (by decide)⟩

end ConflictingVirtualServiceHost
